import Mathlib

/-!
Verification development for the alex-ai-assistant repository.

Shallow embedding of the parts of the code base that the checked
properties concern:

* `alex/brokerage/tastytrade_tools.py` — the pending-trade ledger with its
  two-phase dry-run / confirm flow and TTL expiration;
* `alex/agents/edges.py` and `alex/cortex/router.py` — routing predicates
  of the turn graph;
* `alex/agents/nodes/classify.py` — response parsing of the classifier;
* `alex/tools/filesystem.py` — sandboxed file writes;
* `alex/agents/nodes/trade.py` and `alex/memory/postgres_store.py` — the
  trade audit path;
* `alex/memory/postgres_store.py` and `alex/memory/summarizer.py` — the
  summarization pipeline and semantic search.

Python floats are modelled as rationals, wall-clock instants as natural
numbers (seconds), dictionaries as association lists, and network or
model calls as explicit parameters carrying their outcome.
-/

namespace Alex

/-! ## Brokerage trade tools (`alex/brokerage/tastytrade_tools.py`)

The in-memory store `_pending_trades : dict[str, PendingTrade]` is modelled
as an association list keyed by trade id.  `time.time()` is an explicit
`now : Nat` argument, and the outcome of each brokerage HTTP call is an
explicit `Bool` argument (`true` = 2xx response). -/

/-- Single leg of a TastyTrade order payload, as built by
`place_order_dry_run` (the `legs` list always has exactly one element). -/
structure OrderLeg where
  action : String
  symbol : String
  quantity : Int
  instrument_type : String
  deriving Repr, DecidableEq

/-- Order payload built by `place_order_dry_run` and cached in the pending
trade for later submission. -/
structure OrderPayload where
  time_in_force : String
  order_type : String
  legs : List OrderLeg
  price : Option String
  price_effect : Option String
  deriving Repr, DecidableEq

/-- Mirror of the `PendingTrade` dataclass. -/
structure PendingTrade where
  trade_id : String
  account_number : String
  symbol : String
  action : String
  quantity : Int
  order_type : String
  limit_price : Option ℚ
  instrument_type : String
  option_symbol : Option String
  description : String
  order_payload : OrderPayload
  created_at : Nat
  deriving Repr, DecidableEq

/-- `TRADE_EXPIRATION_SECONDS = 300`. -/
def TRADE_EXPIRATION_SECONDS : Nat := 300

/-- `PendingTrade.is_expired`: `time.time() - created_at > 300`. -/
def isExpired (now : Nat) (t : PendingTrade) : Bool :=
  TRADE_EXPIRATION_SECONDS < now - t.created_at

/-- The module-level `_pending_trades` dictionary. -/
abbrev PendingMap := List (String × PendingTrade)

/-- Dictionary read `_pending_trades.get(trade_id)`. -/
def lookupTrade (tid : String) (m : PendingMap) : Option PendingTrade :=
  (m.find? (fun kv => kv.1 = tid)).map (·.2)

/-- Dictionary removal `del _pending_trades[trade_id]` (a dict holds at most
one binding per key, so deletion removes every binding with that key). -/
def eraseTrade (tid : String) (m : PendingMap) : PendingMap :=
  m.filter (fun kv => ¬ kv.1 = tid)

/-- Dictionary assignment `_pending_trades[trade_id] = pending`. -/
def insertTrade (tid : String) (p : PendingTrade) (m : PendingMap) : PendingMap :=
  (tid, p) :: eraseTrade tid m

/-- `_cleanup_expired_trades`: remove every expired pending trade. -/
def cleanupExpiredTrades (now : Nat) (m : PendingMap) : PendingMap :=
  m.filter (fun kv => ¬ isExpired now kv.2)

/-- Result of `confirm_trade`, reduced to the observable facts the claims
are about: whether the returned dictionary has `success: true`, and whether
the order-submission POST was attempted at all. -/
structure ConfirmOutcome where
  success : Bool
  submitted : Bool
  deriving Repr, DecidableEq

/-- `confirm_trade(trade_id)`.  `submitOk` is the outcome of the order
submission POST (`true` iff status 200/201); it is only consulted when the
submission is actually attempted. -/
def confirmTrade (now : Nat) (submitOk : Bool) (m : PendingMap) (tid : String) :
    PendingMap × ConfirmOutcome :=
  let m1 := cleanupExpiredTrades now m
  match lookupTrade tid m1 with
  | none => (m1, ⟨false, false⟩)
  | some p =>
    if isExpired now p then
      (eraseTrade tid m1, ⟨false, false⟩)
    else
      -- remove from pending before execution to prevent double execution
      let m2 := eraseTrade tid m1
      (m2, ⟨submitOk, true⟩)

/-- `cancel_pending_trade(trade_id)`: pop from the map, succeed iff present. -/
def cancelPendingTrade (m : PendingMap) (tid : String) : PendingMap × Bool :=
  match lookupTrade tid m with
  | none => (m, false)
  | some _ => (eraseTrade tid m, true)

/-- Python truthiness of an optional float (`if limit_price:`): `None` and
`0.0` are falsy. -/
def qTruthy : Option ℚ → Bool
  | none => false
  | some x => x ≠ 0

/-- Python truthiness of an optional string (`if not option_symbol:`):
`None` and the empty string are falsy. -/
def sTruthy : Option String → Bool
  | none => false
  | some s => s ≠ ""

/-- The `order_details` sub-dictionary of a successful dry-run response. -/
structure OrderDetails where
  symbol : String
  action : String
  quantity : Int
  order_type : String
  limit_price : Option String
  instrument_type : String
  deriving Repr, DecidableEq

/-- Observable outcome of `place_order_dry_run`: either the error message of
a `success: False` response, or the payload of a `success: True` response. -/
inductive PlaceOutcome where
  | failure (error : String)
  | ok (trade_id : String) (description : String) (details : OrderDetails)
  deriving Repr, DecidableEq

/-- Input validation sequence of `place_order_dry_run`, applied to the
already-lowercased `action`, `order_type` and `instrument_type`; returns
the first applicable error message, or `none` when all checks pass.
(Error message texts are kept close to the source but unquoted.) -/
def validateOrder (action order_type : String) (limit_price : Option ℚ)
    (quantity : Int) (instrument_type : String) (option_symbol : Option String) :
    Option String :=
  if ¬ (action = "buy" ∨ action = "sell") then
    some "Action must be buy or sell"
  else if ¬ (order_type = "market" ∨ order_type = "limit") then
    some "Order type must be market or limit"
  else if order_type = "limit" ∧ limit_price = none then
    some "Limit price required for limit orders"
  else if quantity ≤ 0 then
    some "Quantity must be positive"
  else if ¬ (instrument_type = "equity" ∨ instrument_type = "option") then
    some "Instrument type must be equity or option"
  else if instrument_type = "option" ∧ ¬ sTruthy option_symbol then
    some "Option symbol required for option orders"
  else
    none

/-- `place_order_dry_run(symbol, action, quantity, order_type, limit_price,
instrument_type, option_symbol)`.  `dryRunOk` is the outcome of the dry-run
POST to the brokerage, and `newTid` the fresh id drawn from `uuid4()`;
`now` is `time.time()`.  Returns the updated pending map and the observable
result. -/
def placeOrderDryRun (now : Nat) (dryRunOk : Bool) (newTid : String)
    (accountNumber : String) (m : PendingMap)
    (symbol action0 : String) (quantity : Int) (order_type0 : String := "market")
    (limit_price : Option ℚ := none) (instrument_type0 : String := "equity")
    (option_symbol : Option String := none) : PendingMap × PlaceOutcome :=
  let m1 := cleanupExpiredTrades now m
  let action := action0.toLower
  let order_type := order_type0.toLower
  let instrument_type := instrument_type0.toLower
  match validateOrder action order_type limit_price quantity instrument_type option_symbol with
  | some e => (m1, .failure e)
  | none =>
        let order_action := if action = "buy" then "Buy to Open" else "Sell to Close"
        let leg_symbol := if instrument_type = "option" then option_symbol.getD "" else symbol
        let order_payload : OrderPayload :=
          { time_in_force := "Day"
            order_type := if order_type = "market" then "Market" else "Limit"
            legs := [{ action := order_action, symbol := leg_symbol, quantity := quantity,
                       instrument_type := if instrument_type = "equity" then "Equity"
                         else "Equity Option" }]
            price := if order_type = "limit" ∧ limit_price ≠ none then
                (limit_price.map toString) else none
            price_effect := if order_type = "limit" ∧ limit_price ≠ none then
                (some (if action = "buy" then "Debit" else "Credit")) else none }
        if ¬ dryRunOk then
          (m1, .failure "Order validation failed")
        else
          let price_str := if qTruthy limit_price
            then " @ $" ++ toString (limit_price.getD 0) else " @ market"
          let description :=
            if instrument_type = "option" then
              action.toUpper ++ " " ++ toString quantity ++ " " ++
                (option_symbol.getD "") ++ price_str
            else
              action.toUpper ++ " " ++ toString quantity ++ " " ++ symbol ++ price_str
          let pending : PendingTrade :=
            { trade_id := newTid
              account_number := accountNumber
              symbol := symbol
              action := action
              quantity := quantity
              order_type := order_type
              limit_price := if qTruthy limit_price then limit_price else none
              instrument_type := instrument_type
              option_symbol := option_symbol
              description := description
              order_payload := order_payload
              created_at := now }
          let details : OrderDetails :=
            { symbol := symbol
              action := action
              quantity := quantity
              order_type := order_type
              limit_price := if qTruthy limit_price then (limit_price.map toString) else none
              instrument_type := instrument_type }
          (insertTrade newTid pending m1, .ok newTid description details)

/-- One entry of the positions list assembled by `get_positions` from the
brokerage response. -/
structure Position where
  symbol : String
  quantity : Int
  quantity_direction : String
  average_open_price : String
  close_price : String
  instrument_type : Option String
  underlying_symbol : Option String
  deriving Repr, DecidableEq

/-- The `position_info` sub-dictionary added by `close_position_dry_run` to
a successful delegated dry-run response. -/
structure PositionInfo where
  current_quantity : Int
  closing_quantity : Int
  remaining_after_close : Int
  deriving Repr, DecidableEq

/-- Result of `close_position_dry_run`: new pending map, observable outcome
of the (possibly delegated) dry run, and the `position_info` field (present
only on success). -/
structure CloseResult where
  map : PendingMap
  outcome : PlaceOutcome
  position_info : Option PositionInfo
  deriving Repr, DecidableEq

/-- The quantity actually closed: `close_quantity = quantity if quantity
else pos_quantity` — Python truthiness, so an explicit `0` (like `None`)
selects the full position quantity. -/
def closeQuantityOf (quantity : Option Int) (posQuantity : Int) : Int :=
  match quantity with
  | none => posQuantity
  | some q => if q = 0 then posQuantity else q

/-- `close_position_dry_run(symbol, quantity)`.  The positions returned by
`get_positions` are an explicit argument (brokerage read); `dryRunOk`,
`newTid`, `accountNumber`, `now` are as in `placeOrderDryRun`. -/
def closePositionDryRun (now : Nat) (dryRunOk : Bool) (newTid : String)
    (accountNumber : String) (m : PendingMap) (positions : List Position)
    (symbol : String) (quantity : Option Int := none) : CloseResult :=
  let m1 := cleanupExpiredTrades now m
  match positions.find? (fun pos => pos.symbol = symbol ∨ pos.underlying_symbol = some symbol) with
  | none => { map := m1, outcome := .failure ("No position found for " ++ symbol),
              position_info := none }
  | some position =>
    let pos_quantity : Int := |position.quantity|
    let close_quantity : Int := closeQuantityOf quantity pos_quantity
    if pos_quantity < close_quantity then
      { map := m1
        outcome := .failure ("Cannot close " ++ toString close_quantity ++
          " shares. Position only has " ++ toString pos_quantity ++ ".")
        position_info := none }
    else
      let action := if 0 < position.quantity then "sell" else "buy"
      let instrument_type0 := (position.instrument_type.getD "equity").toLower
      let instrument_type :=
        if "option".toList <:+: instrument_type0.toList then "option" else "equity"
      let option_symbol := if instrument_type = "option" then some position.symbol else none
      let delegated_symbol :=
        if instrument_type = "equity" then symbol
        else if sTruthy position.underlying_symbol then position.underlying_symbol.getD ""
        else symbol
      let result := placeOrderDryRun now dryRunOk newTid accountNumber m1
        delegated_symbol action close_quantity "market" none instrument_type option_symbol
      match result.2 with
      | .ok tid desc details =>
        { map := result.1
          outcome := .ok tid desc details
          position_info := some
            { current_quantity := pos_quantity
              closing_quantity := close_quantity
              remaining_after_close := pos_quantity - close_quantity } }
      | .failure e => { map := result.1, outcome := .failure e, position_info := none }

/-! ### Helper lemmas about the pending-trade map -/

theorem lookupTrade_eq_none_iff (tid : String) (m : PendingMap) :
    lookupTrade tid m = none ↔ ∀ kv ∈ m, kv.1 ≠ tid := by
  simp [lookupTrade, List.find?_eq_none]

theorem lookupTrade_erase_self (tid : String) (m : PendingMap) :
    lookupTrade tid (eraseTrade tid m) = none := by
  rw [lookupTrade_eq_none_iff]
  intro kv hkv
  simpa [eraseTrade] using (List.mem_filter.1 hkv).2

theorem mem_cleanup (now : Nat) (m : PendingMap) (kv : String × PendingTrade)
    (h : kv ∈ cleanupExpiredTrades now m) : kv ∈ m ∧ isExpired now kv.2 = false := by
  have h' := List.mem_filter.1 h
  refine ⟨h'.1, ?_⟩
  simpa using h'.2

theorem lookupTrade_cleanup_none (tid : String) (now : Nat) (m : PendingMap)
    (h : lookupTrade tid m = none) :
    lookupTrade tid (cleanupExpiredTrades now m) = none := by
  rw [lookupTrade_eq_none_iff] at h ⊢
  intro kv hkv
  exact h kv (mem_cleanup now m kv hkv).1

theorem lookupTrade_cleanup_none_of_expired (tid : String) (now : Nat) (m : PendingMap)
    (h : ∀ p, (tid, p) ∈ m → isExpired now p = true) :
    lookupTrade tid (cleanupExpiredTrades now m) = none := by
  rw [lookupTrade_eq_none_iff]
  intro kv hkv hk
  obtain ⟨hm, hne⟩ := mem_cleanup now m kv hkv
  have : isExpired now kv.2 = true := h kv.2 (by rw [← hk]; exact hm)
  rw [this] at hne
  exact Bool.noConfusion hne

theorem cleanup_idem (now : Nat) (m : PendingMap) :
    cleanupExpiredTrades now (cleanupExpiredTrades now m) = cleanupExpiredTrades now m := by
  simp [cleanupExpiredTrades, List.filter_filter]

theorem mem_place_map (now : Nat) (dryRunOk : Bool) (newTid acct : String)
    (m : PendingMap) (symbol action : String) (q : Int) (ot : String) (lp : Option ℚ)
    (it : String) (os : Option String) (kv : String × PendingTrade)
    (h : kv ∈ (placeOrderDryRun now dryRunOk newTid acct m symbol action q ot lp it os).1) :
    kv ∈ cleanupExpiredTrades now m ∨ kv.2.created_at = now := by
  simp only [placeOrderDryRun] at h
  split at h
  · exact Or.inl h
  · split at h
    · exact Or.inl h
    · simp only [insertTrade] at h
      rcases List.mem_cons.1 h with h' | h'
      · right; rw [h']
      · exact Or.inl (List.mem_of_mem_filter h')

theorem mem_close_map (now : Nat) (dryRunOk : Bool) (newTid acct : String)
    (m : PendingMap) (positions : List Position) (symbol : String) (q : Option Int)
    (kv : String × PendingTrade)
    (h : kv ∈ (closePositionDryRun now dryRunOk newTid acct m positions symbol q).map) :
    kv ∈ cleanupExpiredTrades now m ∨ kv.2.created_at = now := by
  simp only [closePositionDryRun] at h
  split at h
  · exact Or.inl h
  · split at h
    · exact Or.inl h
    · split at h
      all_goals
        rcases mem_place_map _ _ _ _ _ _ _ _ _ _ _ _ kv h with h' | h'
      all_goals try (right; exact h')
      all_goals rw [cleanup_idem] at h'
      all_goals exact Or.inl h'

/-- C1: if the pending map holds a non-expired entry for `trade_id` when
`confirm_trade(trade_id)` runs (i.e. after its initial sweep), then the
entry is removed and the submission is attempted exactly once: the map
returned no longer binds `trade_id` whatever the submission outcome
(`ok1`), so a second `confirm_trade` on the same id — after either a
successful or a failed first submission — returns failure without
attempting a submission. -/
theorem confirm_trade_exactly_once
    (m : PendingMap) (tid : String) (now now2 : Nat) (ok1 ok2 : Bool) (p : PendingTrade)
    (hfind : lookupTrade tid (cleanupExpiredTrades now m) = some p)
    (hexp : isExpired now p = false) :
    (confirmTrade now ok1 m tid).2.submitted = true ∧
    (confirmTrade now ok1 m tid).2.success = ok1 ∧
    lookupTrade tid (confirmTrade now ok1 m tid).1 = none ∧
    confirmTrade now2 ok2 (confirmTrade now ok1 m tid).1 tid =
      (cleanupExpiredTrades now2 (confirmTrade now ok1 m tid).1,
        { success := false, submitted := false }) := by
  have h1 : confirmTrade now ok1 m tid =
      (eraseTrade tid (cleanupExpiredTrades now m), ⟨ok1, true⟩) := by
    simp only [confirmTrade, hfind, hexp]
    rfl
  have h2 : lookupTrade tid (confirmTrade now ok1 m tid).1 = none := by
    rw [h1]; exact lookupTrade_erase_self _ _
  refine ⟨by rw [h1], by rw [h1], h2, ?_⟩
  rw [h1]
  have h3 : lookupTrade tid
      (cleanupExpiredTrades now2 (eraseTrade tid (cleanupExpiredTrades now m))) = none :=
    lookupTrade_cleanup_none _ _ _ (lookupTrade_erase_self _ _)
  simp only [confirmTrade, h3]

/-- Witness for `confirm_trade_exactly_once` at a concrete map and trade. -/
theorem confirm_trade_exactly_once_witness :
    lookupTrade "t1" (cleanupExpiredTrades 10
        [("t1", { trade_id := "t1", account_number := "acc", symbol := "AAPL",
                  action := "buy", quantity := 1, order_type := "market",
                  limit_price := none, instrument_type := "equity",
                  option_symbol := none, description := "BUY 1 AAPL @ market",
                  order_payload := { time_in_force := "Day", order_type := "Market",
                                     legs := [], price := none, price_effect := none },
                  created_at := 0 })]) =
      some { trade_id := "t1", account_number := "acc", symbol := "AAPL",
             action := "buy", quantity := 1, order_type := "market",
             limit_price := none, instrument_type := "equity",
             option_symbol := none, description := "BUY 1 AAPL @ market",
             order_payload := { time_in_force := "Day", order_type := "Market",
                                legs := [], price := none, price_effect := none },
             created_at := 0 } ∧
    (confirmTrade 10 false
        [("t1", { trade_id := "t1", account_number := "acc", symbol := "AAPL",
                  action := "buy", quantity := 1, order_type := "market",
                  limit_price := none, instrument_type := "equity",
                  option_symbol := none, description := "BUY 1 AAPL @ market",
                  order_payload := { time_in_force := "Day", order_type := "Market",
                                     legs := [], price := none, price_effect := none },
                  created_at := 0 })] "t1").2.submitted = true :=
  ⟨by rfl,
    (confirm_trade_exactly_once _ "t1" 10 400 false true _ (by rfl) (by rfl)).1⟩

/-- C2: TTL enforcement.  If every binding of `trade_id` in the pending map
is expired at time `now` (more than 300 s past its `created_at`), then
`confirm_trade(trade_id)` at `now` neither succeeds nor attempts a
submission.  Moreover every entry point sweeps: after `confirm_trade`,
`place_order_dry_run` or `close_position_dry_run` runs at time `now`, every
entry left in the pending map is non-expired at `now` (a fresh entry is
created with `created_at = now`). -/
theorem confirm_trade_ttl_enforced
    (m : PendingMap) (tid : String) (now : Nat) (ok : Bool)
    (hexp : ∀ p, (tid, p) ∈ m → isExpired now p = true) :
    (confirmTrade now ok m tid).2.success = false ∧
    (confirmTrade now ok m tid).2.submitted = false ∧
    (∀ kv ∈ (confirmTrade now ok m tid).1, isExpired now kv.2 = false) ∧
    (∀ (dryRunOk : Bool) (newTid acct symbol action : String) (q : Int)
        (ot : String) (lp : Option ℚ) (it : String) (os : Option String),
      ∀ kv ∈ (placeOrderDryRun now dryRunOk newTid acct m symbol action q ot lp it os).1,
        isExpired now kv.2 = false) ∧
    (∀ (dryRunOk : Bool) (newTid acct : String) (positions : List Position)
        (symbol : String) (q : Option Int),
      ∀ kv ∈ (closePositionDryRun now dryRunOk newTid acct m positions symbol q).map,
        isExpired now kv.2 = false) := by
  have hnone := lookupTrade_cleanup_none_of_expired tid now m hexp
  have h1 : confirmTrade now ok m tid = (cleanupExpiredTrades now m, ⟨false, false⟩) := by
    simp only [confirmTrade, hnone]
  have hfresh : ∀ kv : String × PendingTrade, kv.2.created_at = now →
      isExpired now kv.2 = false := by
    intro kv hkv
    simp [isExpired, hkv, TRADE_EXPIRATION_SECONDS]
  refine ⟨by rw [h1], by rw [h1], ?_, ?_, ?_⟩
  · intro kv hkv
    rw [h1] at hkv
    exact (mem_cleanup now m kv hkv).2
  · intro dryRunOk newTid acct symbol action q ot lp it os kv hkv
    rcases mem_place_map now dryRunOk newTid acct m symbol action q ot lp it os kv hkv with
      h' | h'
    · exact (mem_cleanup now m kv h').2
    · exact hfresh kv h'
  · intro dryRunOk newTid acct positions symbol q kv hkv
    rcases mem_close_map now dryRunOk newTid acct m positions symbol q kv hkv with h' | h'
    · exact (mem_cleanup now m kv h').2
    · exact hfresh kv h'

/-- Witness for `confirm_trade_ttl_enforced`: an entry created at 0 and
confirmed at 301 s is rejected without submission. -/
theorem confirm_trade_ttl_enforced_witness :
    (confirmTrade 301 true
        [("t9", { trade_id := "t9", account_number := "acc", symbol := "AAPL",
                  action := "buy", quantity := 1, order_type := "market",
                  limit_price := none, instrument_type := "equity",
                  option_symbol := none, description := "BUY 1 AAPL @ market",
                  order_payload := { time_in_force := "Day", order_type := "Market",
                                     legs := [], price := none, price_effect := none },
                  created_at := 0 })] "t9").2.success = false ∧
    (confirmTrade 301 true
        [("t9", { trade_id := "t9", account_number := "acc", symbol := "AAPL",
                  action := "buy", quantity := 1, order_type := "market",
                  limit_price := none, instrument_type := "equity",
                  option_symbol := none, description := "BUY 1 AAPL @ market",
                  order_payload := { time_in_force := "Day", order_type := "Market",
                                     legs := [], price := none, price_effect := none },
                  created_at := 0 })] "t9").2.submitted = false := by
  have h := confirm_trade_ttl_enforced
    [("t9", { trade_id := "t9", account_number := "acc", symbol := "AAPL",
              action := "buy", quantity := 1, order_type := "market",
              limit_price := none, instrument_type := "equity",
              option_symbol := none, description := "BUY 1 AAPL @ market",
              order_payload := { time_in_force := "Day", order_type := "Market",
                                 legs := [], price := none, price_effect := none },
              created_at := 0 })] "t9" 301 true
    (by intro p hp
        simp only [List.mem_singleton, Prod.mk.injEq, true_and] at hp
        subst hp; rfl)
  exact ⟨h.1, h.2.1⟩

/-- C10: in `close_position_dry_run`, an explicit quantity of `0` is
treated exactly like an omitted quantity (Python truthiness of
`quantity if quantity else pos_quantity`): the full absolute position
quantity is used as the closing quantity, the quantity-exceeds-position
check cannot fire, and the dry run is delegated for the entire position
(any `position_info` reports closing the whole quantity, remainder 0). -/
theorem close_position_zero_quantity
    (now : Nat) (dryRunOk : Bool) (newTid acct : String) (m : PendingMap)
    (positions : List Position) (symbol : String) (pos : Position)
    (hfind : positions.find?
        (fun ps => ps.symbol = symbol ∨ ps.underlying_symbol = some symbol) = some pos) :
    closePositionDryRun now dryRunOk newTid acct m positions symbol (some 0) =
      closePositionDryRun now dryRunOk newTid acct m positions symbol none ∧
    closeQuantityOf (some 0) |pos.quantity| = |pos.quantity| ∧
    ¬ (|pos.quantity| < closeQuantityOf (some 0) |pos.quantity|) ∧
    (∀ info, (closePositionDryRun now dryRunOk newTid acct m positions symbol
        (some 0)).position_info = some info →
      info.closing_quantity = |pos.quantity| ∧ info.remaining_after_close = 0) := by
  have hq : ∀ x : Int, closeQuantityOf (some 0) x = x := by
    intro x; simp [closeQuantityOf]
  have hqn : ∀ x : Int, closeQuantityOf none x = x := fun _ => rfl
  refine ⟨?_, hq _, by simp [hq], ?_⟩
  · simp only [closePositionDryRun, hq, hqn]
  · intro info hinfo
    simp only [closePositionDryRun, hfind, hq] at hinfo
    rw [if_neg (lt_irrefl _)] at hinfo
    split at hinfo
    · cases hinfo
      exact ⟨rfl, sub_self _⟩
    · exact absurd hinfo (by simp)

/-- Witness for `close_position_zero_quantity` at a concrete position list. -/
theorem close_position_zero_quantity_witness :
    ([{ symbol := "AAPL", quantity := 5, quantity_direction := "Long",
        average_open_price := "100", close_price := "101",
        instrument_type := some "Equity", underlying_symbol := none }] :
          List Position).find?
        (fun ps => ps.symbol = "AAPL" ∨ ps.underlying_symbol = some "AAPL") =
      some { symbol := "AAPL", quantity := 5, quantity_direction := "Long",
             average_open_price := "100", close_price := "101",
             instrument_type := some "Equity", underlying_symbol := none } ∧
    closePositionDryRun 7 true "t2" "acc" []
        [{ symbol := "AAPL", quantity := 5, quantity_direction := "Long",
           average_open_price := "100", close_price := "101",
           instrument_type := some "Equity", underlying_symbol := none }] "AAPL" (some 0) =
      closePositionDryRun 7 true "t2" "acc" []
        [{ symbol := "AAPL", quantity := 5, quantity_direction := "Long",
           average_open_price := "100", close_price := "101",
           instrument_type := some "Equity", underlying_symbol := none }] "AAPL" none :=
  ⟨by rfl,
    (close_position_zero_quantity 7 true "t2" "acc" []
      [{ symbol := "AAPL", quantity := 5, quantity_direction := "Long",
         average_open_price := "100", close_price := "101",
         instrument_type := some "Equity", underlying_symbol := none }] "AAPL"
      { symbol := "AAPL", quantity := 5, quantity_direction := "Long",
        average_open_price := "100", close_price := "101",
        instrument_type := some "Equity", underlying_symbol := none } (by rfl)).1⟩

/-! ## Turn-graph routing (`alex/agents/edges.py`, `alex/cortex/router.py`,
`alex/agents/state.py`)

`AlexState` is reduced to the fields the routing predicates read:
`messages`, `error`, `processing_stage` and `metadata` (with its `intent`
and `complexity_score`). -/

/-- The fields of `InteractionMetadata` read or written by classification
and routing. -/
structure InteractionMetadata where
  intent : Option String
  complexity_score : ℚ
  topics_extracted : List String := []
  entities_extracted : List String := []
  deriving Repr, DecidableEq

/-- One conversation message (`HumanMessage`/`AIMessage` or role dict). -/
structure Message where
  role : String
  content : String
  deriving Repr, DecidableEq

/-- The slice of `AlexState` read by `route_after_classify` and
`should_store`. -/
structure AlexState where
  messages : List Message
  error : Option String
  processing_stage : String
  metadata : Option InteractionMetadata
  deriving Repr, DecidableEq

/-- Python truthiness of `state.get("error")`: absent and empty-string
errors are falsy. -/
def errTruthy : Option String → Bool
  | none => false
  | some s => s ≠ ""

/-- `get_last_user_message`: content of the most recent message with the
user role. -/
def getLastUserMessage (s : AlexState) : Option String :=
  (s.messages.reverse.find? (fun msg => msg.role = "user")).map (·.content)

/-- `get_last_assistant_message`: content of the most recent message with
the assistant role. -/
def getLastAssistantMessage (s : AlexState) : Option String :=
  (s.messages.reverse.find? (fun msg => msg.role = "assistant")).map (·.content)

/-- Default of `settings.complexity_threshold` (`alex/config.py`). -/
def defaultComplexityThreshold : ℚ := 7/10

/-- `route_to_cortex(state)` with the configured complexity threshold as an
explicit argument. -/
def routeToCortex (threshold : ℚ) (s : AlexState) : String :=
  let intent : Option String :=
    match s.metadata with
    | some md => md.intent
    | none => some "chat"
  let complexity : ℚ :=
    match s.metadata with
    | some md => md.complexity_score
    | none => 3/10
  if intent = some "code_change" ∨ intent = some "refactor" ∨ intent = some "debug" ∨
      intent = some "test" ∨ intent = some "deploy" then
    "claude_code"
  else if threshold ≤ complexity then
    "pro"
  else if intent = some "task_planning" ∨ intent = some "architecture" ∨
      intent = some "analysis" then
    "pro"
  else
    "flash"

/-- `route_after_classify(state)`.  The source reads `metadata` once and
guards each intent test with `metadata and ...`; the absent-metadata case
therefore skips all intent tests and only consults the cortex. -/
def routeAfterClassify (threshold : ℚ) (s : AlexState) : String :=
  if errTruthy s.error ∨ s.processing_stage = "error" then "error"
  else
    match s.metadata with
    | some md =>
      if md.intent = some "self_modify" then "self_modify"
      else if md.intent = some "trade" then "trade"
      else
        let cortex := routeToCortex threshold s
        if cortex = "claude_code" then "engineer"
        else if md.intent = some "memory_query" ∨ md.intent = some "question" ∨
            md.intent = some "task_planning" then "retrieve_memory"
        else if cortex = "pro" then "respond_pro"
        else "respond_flash"
    | none =>
      let cortex := routeToCortex threshold s
      if cortex = "claude_code" then "engineer"
      else if cortex = "pro" then "respond_pro"
      else "respond_flash"

/-- `should_store(state)` (`not user_msg` is Python truthiness, so a
missing or empty message skips storage). -/
def shouldStore (s : AlexState) : String :=
  if errTruthy s.error then "complete"
  else if ¬ sTruthy (getLastUserMessage s) ∨ ¬ sTruthy (getLastAssistantMessage s) then
    "complete"
  else if ((getLastUserMessage s).getD "").length < 5 ∨
      ((getLastAssistantMessage s).getD "").length < 10 then
    "complete"
  else "store"

/-- The classifier's closed intent set (spec section 4.2). -/
def classifierIntents : List String :=
  ["chat", "question", "code_change", "refactor", "debug", "test",
   "memory_query", "task_planning", "creative", "self_modify", "trade"]

/-- Routing priority exactly as the claim states it (spec section 4.1):
error, then self_modify, then trade, then the engineering intents, then the
memory intents, then the complexity threshold. -/
def routeAfterClassifySpec (threshold : ℚ) (s : AlexState) : String :=
  if errTruthy s.error ∨ s.processing_stage = "error" then "error"
  else
    match s.metadata with
    | none => "respond_flash"
    | some md =>
      if md.intent = some "self_modify" then "self_modify"
      else if md.intent = some "trade" then "trade"
      else if md.intent = some "code_change" ∨ md.intent = some "refactor" ∨
          md.intent = some "debug" ∨ md.intent = some "test" ∨
          md.intent = some "deploy" then "engineer"
      else if md.intent = some "memory_query" ∨ md.intent = some "question" ∨
          md.intent = some "task_planning" then "retrieve_memory"
      else if threshold ≤ md.complexity_score then "respond_pro"
      else "respond_flash"

/-- C5: for every state whose classified intent lies in the classifier's
closed intent set, `route_after_classify` implements exactly the spec's
priority list (error status, self_modify, trade, engineering intents,
memory intents, complexity threshold, flash).  An "error is set" means the
state carries a truthy `error` or is in the error processing stage. -/
theorem route_after_classify_spec (threshold : ℚ) (s : AlexState)
    (md : InteractionMetadata) (i : String)
    (hmd : s.metadata = some md) (hi : md.intent = some i)
    (hset : i ∈ classifierIntents) :
    routeAfterClassify threshold s = routeAfterClassifySpec threshold s := by
  fin_cases hset <;>
    simp only [routeAfterClassify, routeAfterClassifySpec, routeToCortex, hmd, hi] <;>
    by_cases hc : threshold ≤ md.complexity_score <;>
    by_cases he : errTruthy s.error = true ∨ s.processing_stage = "error" <;>
    simp_all <;>
    simp_all [if_neg (not_le.mpr hc)]

/-- Witness for `route_after_classify_spec` at a concrete state. -/
theorem route_after_classify_spec_witness :
    routeAfterClassify (7/10)
        { messages := [], error := none, processing_stage := "classify",
          metadata := some { intent := some "question", complexity_score := 9/10 } } =
      routeAfterClassifySpec (7/10)
        { messages := [], error := none, processing_stage := "classify",
          metadata := some { intent := some "question", complexity_score := 9/10 } } :=
  route_after_classify_spec (7/10) _
    { intent := some "question", complexity_score := 9/10 } "question"
    rfl rfl (by decide)

/-- C6: `should_store` returns "complete" (skipping storage) exactly when
an error is set, or there is no last user or assistant message, or the
last user message has fewer than 5 characters, or the last assistant
message has fewer than 10 characters; otherwise it returns "store".
(An absent message and an empty-string message both count as missing,
matching Python truthiness; an empty message also has length below the
cutoff, so the two readings agree.) -/
theorem should_store_iff (s : AlexState) :
    (shouldStore s = "complete" ↔
      (errTruthy s.error = true ∨
       getLastUserMessage s = none ∨ getLastAssistantMessage s = none ∨
       (∃ u, getLastUserMessage s = some u ∧ u.length < 5) ∨
       (∃ a, getLastAssistantMessage s = some a ∧ a.length < 10))) ∧
    (shouldStore s = "store" ↔
      ¬ (errTruthy s.error = true ∨
       getLastUserMessage s = none ∨ getLastAssistantMessage s = none ∨
       (∃ u, getLastUserMessage s = some u ∧ u.length < 5) ∨
       (∃ a, getLastAssistantMessage s = some a ∧ a.length < 10))) := by
  rcases hu : getLastUserMessage s with _ | u <;>
    rcases ha : getLastAssistantMessage s with _ | a <;>
    by_cases he : errTruthy s.error = true <;>
    simp only [shouldStore, hu, ha, he, sTruthy] <;>
    simp_all
  by_cases hu0 : u = "" <;> by_cases ha0 : a = "" <;>
    by_cases h510 : u.length < 5 ∨ a.length < 10 <;>
    simp_all <;> omega

/-! ## Classifier response parsing (`alex/agents/nodes/classify.py`)

The model response is a character list.  `str.split`, `str.strip`,
`str.startswith` and slicing are embedded directly; `json.loads` is an
opaque parameter `parse` whose `none` result stands for
`json.JSONDecodeError`. -/

/-- The backtick character of a markdown code fence. -/
def fenceChar : Char := Char.ofNat 96

/-- Python `str.strip()` whitespace set (space, tab, LF, CR, VT, FF). -/
def isPySpace (c : Char) : Bool :=
  c = ' ' ∨ c = '\t' ∨ c = '\n' ∨ c = '\r' ∨ c = '\x0b' ∨ c = '\x0c'

/-- Python `str.strip()`: drop leading and trailing whitespace. -/
def pyStrip (l : List Char) : List Char :=
  ((l.dropWhile isPySpace).reverse.dropWhile isPySpace).reverse

/-- Python `text.split("```")`: split on the leftmost occurrences of the
three-backtick fence. -/
def splitFence : List Char → List (List Char)
  | [] => [[]]
  | c :: rest =>
    if c = fenceChar ∧ [fenceChar, fenceChar].isPrefixOf rest then
      [] :: splitFence (rest.drop 2)
    else
      (c :: (splitFence rest).headD []) :: (splitFence rest).tail
termination_by l => l.length
decreasing_by
  all_goals simp only [List.length_cons, List.length_drop]
  all_goals omega

/-- The code-fence stripping performed by `classify_intent` before
`json.loads`: strip the text; if it starts with a fence, take the piece
between the first two fences, drop a leading `json` tag, and strip again. -/
def stripFences (t : List Char) : List Char :=
  let t0 := pyStrip t
  if [fenceChar, fenceChar, fenceChar].isPrefixOf t0 then
    let s1 := (splitFence t0).getD 1 []
    let s2 := if ("json".toList).isPrefixOf s1 then s1.drop 4 else s1
    pyStrip s2
  else t0

/-- A successfully parsed classification JSON object; optional fields model
`dict.get` with defaults. -/
structure Classification where
  intent : Option String
  complexity_score : Option ℚ
  topics : List String
  entities : List String
  deriving Repr, DecidableEq

/-- The state delta returned by `classify_intent` on its two parsing paths
(both leave `error` unset and set `processing_stage = "classify"`). -/
structure ClassifyDelta where
  metadata : InteractionMetadata
  processing_stage : String
  error : Option String
  deriving Repr, DecidableEq

/-- Parsing portion of `classify_intent`: fence-strip the model response
text, `json.loads` it, and build the state delta; a `JSONDecodeError`
(`parse … = none`) falls back to intent `chat` with complexity `0.5`. -/
def classifyParse (parse : List Char → Option Classification)
    (md : InteractionMetadata) (text : List Char) : ClassifyDelta :=
  match parse (stripFences text) with
  | some c =>
    { metadata := { md with
        intent := some (c.intent.getD "chat")
        complexity_score := c.complexity_score.getD (3/10)
        topics_extracted := c.topics
        entities_extracted := c.entities }
      processing_stage := "classify"
      error := none }
  | none =>
    { metadata := { md with intent := some "chat", complexity_score := 1/2 }
      processing_stage := "classify"
      error := none }

/-! ### Lemmas about fence stripping -/

theorem splitFence_ne_nil (l : List Char) : splitFence l ≠ [] := by
  cases l with
  | nil => rw [splitFence]; simp
  | cons c rest =>
    rw [splitFence]
    split <;> simp

theorem splitFence_fence (rest : List Char) :
    splitFence (fenceChar :: fenceChar :: fenceChar :: rest) = [] :: splitFence rest := by
  rw [splitFence]
  rw [if_pos]
  · simp
  · refine ⟨rfl, ?_⟩
    simp [List.isPrefixOf]

theorem splitFence_append_no_fence (l xs : List Char) (h : fenceChar ∉ l) :
    splitFence (l ++ xs) =
      (l ++ (splitFence xs).headD []) :: (splitFence xs).tail := by
  induction l with
  | nil =>
    simp only [List.nil_append]
    rcases hx : splitFence xs with _ | ⟨h0, t0⟩
    · exact absurd hx (splitFence_ne_nil xs)
    · simp
  | cons c l ih =>
    have hc : c ≠ fenceChar := fun hcf => h (by rw [hcf]; exact List.mem_cons_self _ _)
    have h' : fenceChar ∉ l := fun hf => h (List.mem_cons_of_mem _ hf)
    rw [List.cons_append, splitFence, if_neg (by rintro ⟨rfl, -⟩; exact hc rfl)]
    rw [ih h']
    simp

theorem isPySpace_nl : isPySpace '\n' = true := by decide

theorem pyStrip_cons_concat (c d : Char) (l : List Char)
    (hc : isPySpace c = false) (hd : isPySpace d = false) :
    pyStrip (c :: (l ++ [d])) = c :: (l ++ [d]) := by
  simp [pyStrip, List.dropWhile_cons, hc, hd]

theorem pyStrip_newline_wrap (body : List Char) :
    pyStrip ('\n' :: (body ++ ['\n'])) = pyStrip body := by
  induction body with
  | nil => decide
  | cons c rest ih =>
    by_cases hc : isPySpace c = true
    · have h1 : pyStrip ('\n' :: ((c :: rest) ++ ['\n'])) =
          pyStrip ('\n' :: (rest ++ ['\n'])) := by
        simp [pyStrip, List.dropWhile_cons, hc, isPySpace_nl]
      have h2 : pyStrip (c :: rest) = pyStrip rest := by
        simp [pyStrip, List.dropWhile_cons, hc]
      rw [h1, ih, h2]
    · have hc' : isPySpace c = false := by simpa using hc
      simp [pyStrip, List.dropWhile_cons, hc', isPySpace_nl]

/-- After the first fence, `classify_intent` keeps the text between the
first two fences, drops the `json` tag, and strips: for every fenced
payload with no stray backtick, the fences are gone before `json.loads`
runs. -/
theorem stripFences_fenced_json (body : List Char) (h : fenceChar ∉ body) :
    stripFences ([fenceChar, fenceChar, fenceChar] ++
        ('j' :: 's' :: 'o' :: 'n' :: '\n' :: body) ++
        ['\n', fenceChar, fenceChar, fenceChar]) = pyStrip body := by
  have hmid : fenceChar ∉ ('j' :: 's' :: 'o' :: 'n' :: '\n' :: body) ++ ['\n'] := by
    intro hf
    rcases List.mem_append.1 hf with hf | hf
    · simp only [List.mem_cons] at hf
      rcases hf with hf | hf | hf | hf | hf | hf
      · exact absurd hf (by decide)
      · exact absurd hf (by decide)
      · exact absurd hf (by decide)
      · exact absurd hf (by decide)
      · exact absurd hf (by decide)
      · exact h hf
    · exact absurd hf (by decide)
  have h0 : pyStrip ([fenceChar, fenceChar, fenceChar] ++
      ('j' :: 's' :: 'o' :: 'n' :: '\n' :: body) ++
      ['\n', fenceChar, fenceChar, fenceChar]) =
      [fenceChar, fenceChar, fenceChar] ++
      ('j' :: 's' :: 'o' :: 'n' :: '\n' :: body) ++
      ['\n', fenceChar, fenceChar, fenceChar] := by
    have := pyStrip_cons_concat fenceChar fenceChar
      ([fenceChar, fenceChar] ++ ('j' :: 's' :: 'o' :: 'n' :: '\n' :: body) ++
        ['\n', fenceChar, fenceChar]) (by decide) (by decide)
    simpa using this
  have hsplit : splitFence ([fenceChar, fenceChar, fenceChar] ++
      ('j' :: 's' :: 'o' :: 'n' :: '\n' :: body) ++
      ['\n', fenceChar, fenceChar, fenceChar]) =
      [[], ('j' :: 's' :: 'o' :: 'n' :: '\n' :: body) ++ ['\n'], []] := by
    have e1 : [fenceChar, fenceChar, fenceChar] ++
        ('j' :: 's' :: 'o' :: 'n' :: '\n' :: body) ++
        ['\n', fenceChar, fenceChar, fenceChar] =
        fenceChar :: fenceChar :: fenceChar ::
          ((('j' :: 's' :: 'o' :: 'n' :: '\n' :: body) ++ ['\n']) ++
            [fenceChar, fenceChar, fenceChar]) := by
      simp
    rw [e1, splitFence_fence, splitFence_append_no_fence _ _ hmid,
      splitFence_fence]
    rw [show splitFence ([] : List Char) = [[]] from by rw [splitFence]]
    simp
  unfold stripFences
  rw [h0]
  rw [if_pos (by simp [List.isPrefixOf])]
  rw [hsplit]
  simp only [List.getD, List.get?, Option.getD_some]
  rw [if_pos (by simp [List.isPrefixOf])]
  have hd4 : (('j' :: 's' :: 'o' :: 'n' :: '\n' :: body) ++ ['\n']).drop 4 =
      '\n' :: (body ++ ['\n']) := by simp
  rw [hd4, pyStrip_newline_wrap]

/-- Same as `stripFences_fenced_json` for a fence without the `json` tag. -/
theorem stripFences_fenced_plain (body : List Char) (h : fenceChar ∉ body) :
    stripFences ([fenceChar, fenceChar, fenceChar] ++ ('\n' :: body) ++
        ['\n', fenceChar, fenceChar, fenceChar]) = pyStrip body := by
  have hmid : fenceChar ∉ ('\n' :: body) ++ ['\n'] := by
    intro hf
    rcases List.mem_append.1 hf with hf | hf
    · simp only [List.mem_cons] at hf
      rcases hf with hf | hf
      · exact absurd hf (by decide)
      · exact h hf
    · exact absurd hf (by decide)
  have h0 : pyStrip ([fenceChar, fenceChar, fenceChar] ++ ('\n' :: body) ++
      ['\n', fenceChar, fenceChar, fenceChar]) =
      [fenceChar, fenceChar, fenceChar] ++ ('\n' :: body) ++
      ['\n', fenceChar, fenceChar, fenceChar] := by
    have := pyStrip_cons_concat fenceChar fenceChar
      ([fenceChar, fenceChar] ++ ('\n' :: body) ++ ['\n', fenceChar, fenceChar])
      (by decide) (by decide)
    simpa using this
  have hsplit : splitFence ([fenceChar, fenceChar, fenceChar] ++ ('\n' :: body) ++
      ['\n', fenceChar, fenceChar, fenceChar]) =
      [[], ('\n' :: body) ++ ['\n'], []] := by
    have e1 : [fenceChar, fenceChar, fenceChar] ++ ('\n' :: body) ++
        ['\n', fenceChar, fenceChar, fenceChar] =
        fenceChar :: fenceChar :: fenceChar ::
          ((('\n' :: body) ++ ['\n']) ++ [fenceChar, fenceChar, fenceChar]) := by
      simp
    rw [e1, splitFence_fence, splitFence_append_no_fence _ _ hmid,
      splitFence_fence]
    rw [show splitFence ([] : List Char) = [[]] from by rw [splitFence]]
    simp
  unfold stripFences
  rw [h0]
  rw [if_pos (by simp [List.isPrefixOf])]
  rw [hsplit]
  simp only [List.getD, List.get?, Option.getD_some]
  rw [if_neg (by simp [List.isPrefixOf])]
  exact pyStrip_newline_wrap body

/-- C7: the classifier's parsing is fault tolerant.  Markdown code fences
(with an optional `json` tag) around the model's JSON are stripped before
parsing, and whenever `json.loads` fails the node returns a non-error delta
with intent `"chat"` and complexity score `0.5` (processing stage
`"classify"`), so the turn proceeds instead of aborting. -/
theorem classify_parse_tolerant
    (parse : List Char → Option Classification) (md : InteractionMetadata)
    (t body : List Char)
    (hfail : parse (stripFences t) = none)
    (hbody : fenceChar ∉ body) :
    classifyParse parse md t =
      { metadata := { md with intent := some "chat", complexity_score := 1/2 }
        processing_stage := "classify"
        error := none } ∧
    (classifyParse parse md t).error = none ∧
    (classifyParse parse md t).processing_stage = "classify" ∧
    stripFences ([fenceChar, fenceChar, fenceChar] ++
        ('j' :: 's' :: 'o' :: 'n' :: '\n' :: body) ++
        ['\n', fenceChar, fenceChar, fenceChar]) = pyStrip body ∧
    stripFences ([fenceChar, fenceChar, fenceChar] ++ ('\n' :: body) ++
        ['\n', fenceChar, fenceChar, fenceChar]) = pyStrip body := by
  have h1 : classifyParse parse md t =
      { metadata := { md with intent := some "chat", complexity_score := 1/2 }
        processing_stage := "classify"
        error := none } := by
    unfold classifyParse
    rw [hfail]
  exact ⟨h1, by rw [h1], by rw [h1],
    stripFences_fenced_json body hbody, stripFences_fenced_plain body hbody⟩

/-- Witness for `classify_parse_tolerant`: an unparsable response falls
back to chat at complexity one half, and a concrete fenced payload is
unfenced. -/
theorem classify_parse_tolerant_witness :
    classifyParse (fun _ => none)
        { intent := none, complexity_score := 0 } ['x'] =
      { metadata := { intent := some "chat", complexity_score := 1/2,
                      topics_extracted := [], entities_extracted := [] }
        processing_stage := "classify"
        error := none } ∧
    stripFences ([fenceChar, fenceChar, fenceChar] ++
        ('j' :: 's' :: 'o' :: 'n' :: '\n' :: ['a']) ++
        ['\n', fenceChar, fenceChar, fenceChar]) = pyStrip ['a'] :=
  ⟨(classify_parse_tolerant (fun _ => none)
      { intent := none, complexity_score := 0 } ['x'] ['a'] rfl (by decide)).1,
   (classify_parse_tolerant (fun _ => none)
      { intent := none, complexity_score := 0 } ['x'] ['a'] rfl (by decide)).2.2.2.1⟩

/-! ## Filesystem tools (`alex/tools/filesystem.py`)

Paths are strings; `PROJECT_ROOT` is an abstract absolute path given by its
component list (assumed already resolved).  `pathlib` resolution is
component normalization: `Path(p)` drops empty and `"."` parts,
`.resolve()` folds `".."` against the stack (stopping at the filesystem
root), and `.relative_to(PROJECT_ROOT)` succeeds iff the root components
are a prefix.  The on-disk state is an association list from resolved
component lists to contents. -/

/-- `ALLOWED_PATHS`. -/
def ALLOWED_PATHS : List String :=
  ["alex/", "tests/", "web/", "schema/", "scripts/"]

/-- `PROTECTED_FILES`. -/
def PROTECTED_FILES : List String :=
  ["cloudbuild.yaml", "CLAUDE.md", "SESSION_STATE.md", "alex/config.py",
   "schema/neo4j_schema.cypher", ".env", ".env.example"]

/-- `ALLOWED_EXTENSIONS`. -/
def ALLOWED_EXTENSIONS : List String :=
  [".py", ".js", ".ts", ".tsx", ".jsx",
   ".html", ".css", ".scss",
   ".json", ".yaml", ".yml", ".toml",
   ".md", ".txt", ".rst",
   ".sh", ".bash",
   ".cypher", ".sql"]

/-- Split a character list on slashes (`str.split("/")`). -/
def splitSlash : List Char → List (List Char)
  | [] => [[]]
  | c :: rest =>
    if c = '/' then [] :: splitSlash rest
    else (c :: (splitSlash rest).headD []) :: (splitSlash rest).tail

/-- `pathlib` parsing: split on slashes, dropping empty and `"."` parts. -/
def pathParts (p : String) : List String :=
  ((splitSlash p.toList).map (fun cs => String.mk cs)).filter
    (fun s => s ≠ "" ∧ s ≠ ".")

/-- Executable `str.startswith` (character-list prefix test). -/
def strStartsWith (s pre : String) : Bool :=
  pre.toList.isPrefixOf s.toList

/-- Executable `str.endswith` (character-list suffix test). -/
def strEndsWith (s post : String) : Bool :=
  post.toList.isSuffixOf s.toList

/-- Whether `PROJECT_ROOT / p` ignores the root (`p` absolute). -/
def isAbsPath (p : String) : Bool :=
  strStartsWith p "/"

/-- `.resolve()` on a component stack: `".."` pops (staying at the
filesystem root on underflow), any other component pushes. -/
def resolveParts : List String → List String → List String
  | acc, [] => acc
  | acc, s :: rest =>
    if s = ".." then resolveParts acc.dropLast rest
    else resolveParts (acc ++ [s]) rest

/-- `(PROJECT_ROOT / path).resolve()`. -/
def resolveAbs (root : List String) (p : String) : List String :=
  if isAbsPath p then resolveParts [] (pathParts p)
  else resolveParts root (pathParts p)

/-- `resolved.relative_to(PROJECT_ROOT)`: the relative component list, or
`none` (a `ValueError`) when the resolved path escapes the root. -/
def resolveRel (root : List String) (p : String) : Option (List String) :=
  let resolved := resolveAbs root p
  if root.isPrefixOf resolved then some (resolved.drop root.length) else none

/-- `str()` of a relative path (`Path(".")` prints as `"."`). -/
def relPathStr (rel : List String) : String :=
  if rel = [] then "." else String.intercalate "/" rel

/-- `_is_path_allowed`: inside the root and under an allow-listed subtree
(a `ValueError` from `relative_to` yields `False`). -/
def isPathAllowed (root : List String) (p : String) : Bool :=
  match resolveRel root p with
  | some rel => ALLOWED_PATHS.any (fun a => strStartsWith (relPathStr rel) a)
  | none => false

/-- `_is_protected_file` (unresolvable paths are treated as protected). -/
def isProtectedFile (root : List String) (p : String) : Bool :=
  match resolveRel root p with
  | some rel =>
    PROTECTED_FILES.contains (relPathStr rel) ||
      PROTECTED_FILES.any (fun pf => strEndsWith (relPathStr rel) ("/" ++ pf))
  | none => true

/-- `_has_allowed_extension` (on the raw path string). -/
def hasAllowedExtension (p : String) : Bool :=
  ALLOWED_EXTENSIONS.any (fun e => strEndsWith p e)

/-- `_get_absolute_path`: the resolved path, or `none` for the
`PermissionDeniedError` raised when it escapes the root. -/
def getAbsolutePath (root : List String) (p : String) : Option (List String) :=
  if root.isPrefixOf (resolveAbs root p) then some (resolveAbs root p) else none

/-- On-disk state: resolved path components to file content. -/
abbrev Fs := List (List String × String)

/-- Error taxonomy of the filesystem tools. -/
inductive FsError where
  | permissionDenied (msg : String)
  | fileNotFound (msg : String)
  | ioFailure (msg : String)
  deriving Repr, DecidableEq

/-- Successful `write_file` response (the fields the claims observe). -/
structure WriteResult where
  path : String
  action : String
  previous_content : Option String
  deriving Repr, DecidableEq

/-- `write_file(path, content, create_dirs, require_confirmation)`:
permission checks in source order, then read-modify-write of the target
(directory creation has no effect on the file map). -/
def writeFile (root : List String) (fs : Fs) (p content : String)
    (createDirs : Bool := true) (requireConfirmation : Bool := true) :
    Except FsError (Fs × WriteResult) :=
  if ¬ isPathAllowed root p then
    .error (.permissionDenied ("Path not in allowed directories: " ++ p))
  else if ¬ hasAllowedExtension p then
    .error (.permissionDenied ("File extension not allowed: " ++ p))
  else if isProtectedFile root p ∧ requireConfirmation then
    .error (.permissionDenied ("File is protected and requires explicit confirmation: " ++ p))
  else
    match getAbsolutePath root p with
    | none => .error (.permissionDenied ("Path escapes project root: " ++ p))
    | some abs =>
      let old := ((fs.find? (fun kv => kv.1 = abs)).map (·.2))
      .ok ((abs, content) :: fs.filter (fun kv => ¬ kv.1 = abs),
        { path := p
          action := if old.isNone then "created" else "modified"
          previous_content := old })

theorem isPathAllowed_iff (root : List String) (p : String) :
    isPathAllowed root p = true ↔
      ∃ rel, resolveRel root p = some rel ∧
        ∃ a ∈ ALLOWED_PATHS, strStartsWith (relPathStr rel) a := by
  unfold isPathAllowed
  rcases h : resolveRel root p with _ | rel
  · simp
  · simp [List.any_eq_true]

/-- C4: path sandboxing of `write_file`.  If the path resolves outside the
project root, or inside the root but outside every allow-listed subtree,
or lacks an allowed extension, or is a protected file while
`require_confirmation` is set, then the call fails with
`PermissionDeniedError` — the returned value is an error carrying no new
filesystem state, so no file is created, read or written. -/
theorem write_file_sandboxing
    (root : List String) (fs : Fs) (p content : String) (cd rc : Bool)
    (hdeny : resolveRel root p = none ∨
      (∀ rel, resolveRel root p = some rel →
        ∀ a ∈ ALLOWED_PATHS, ¬ strStartsWith (relPathStr rel) a) ∨
      (∀ e ∈ ALLOWED_EXTENSIONS, ¬ strEndsWith p e) ∨
      (isProtectedFile root p = true ∧ rc = true)) :
    ∃ msg, writeFile root fs p content cd rc = .error (.permissionDenied msg) := by
  unfold writeFile
  by_cases h1 : isPathAllowed root p = true
  · by_cases h2 : hasAllowedExtension p = true
    · have hprot : isProtectedFile root p = true ∧ rc = true := by
        rcases hdeny with hd | hd | hd | hd
        · obtain ⟨rel, hrel, -⟩ := (isPathAllowed_iff root p).1 h1
          rw [hd] at hrel
          exact absurd hrel (by simp)
        · obtain ⟨rel, hrel, a, ha, hsw⟩ := (isPathAllowed_iff root p).1 h1
          exact absurd hsw (hd rel hrel a ha)
        · unfold hasAllowedExtension at h2
          rw [List.any_eq_true] at h2
          obtain ⟨e, he, hew⟩ := h2
          exact absurd (by simpa using hew) (hd e he)
        · exact hd
      refine ⟨"File is protected and requires explicit confirmation: " ++ p, ?_⟩
      rw [if_neg (by simp [h1]), if_neg (by simp [h2]),
        if_pos ⟨hprot.1, by simp [hprot.2]⟩]
    · refine ⟨"File extension not allowed: " ++ p, ?_⟩
      rw [if_neg (by simp [h1]), if_pos (by simpa using h2)]
  · refine ⟨"Path not in allowed directories: " ++ p, ?_⟩
    rw [if_pos (by simpa using h1)]

/-- Witness for `write_file_sandboxing`: a traversal path escaping the
project root is rejected. -/
theorem write_file_sandboxing_witness :
    resolveRel ["home", "proj"] "../etc/passwd.py" = none ∧
    ∃ msg, writeFile ["home", "proj"] [] "../etc/passwd.py" "x" true true =
      .error (.permissionDenied msg) :=
  ⟨by rfl,
    write_file_sandboxing ["home", "proj"] [] "../etc/passwd.py" "x" true true
      (Or.inl (by rfl))⟩

/-! ## Trade audit path (`alex/agents/nodes/trade.py`,
`alex/memory/postgres_store.py`)

`respond_trade` collects the trades whose `confirm_trade` tool call
succeeded and, for each, calls `postgres_store.store_trade(...)` inside a
`try/except` that logs a warning and continues.  `PostgresStore` is the
class whose methods are listed below; attribute lookup of a missing method
raises `AttributeError`, which that `except` swallows. -/

/-- The methods defined by `class PostgresStore` (and its alias
`GraphStore`), in source order. -/
def postgresStoreMethods : List String :=
  ["get_pool", "close", "connection", "ensure_user", "ensure_time_tree",
   "store_interaction", "_link_to_concepts", "get_interactions_for_date",
   "get_daily_summary", "create_daily_summary", "get_weekly_summary",
   "get_daily_summaries_for_week", "create_weekly_summary",
   "get_unsummarized_days", "get_unsummarized_weeks",
   "get_weekly_summaries_for_month", "get_unsummarized_months",
   "create_monthly_summary", "get_related_concepts", "store_code_change",
   "_extract_concepts_from_files", "_link_change_to_concepts",
   "get_recent_code_changes", "get_code_changes_for_file",
   "semantic_search", "health_check"]

/-- One element of `respond_trade`'s `executed_trades` list (a
`confirm_trade` result with `success: true`). -/
structure ExecutedTrade where
  trade_id : Option String
  order_id : Option String
  description : Option String
  deriving Repr, DecidableEq

/-- A persistent Trade audit row as the spec describes it. -/
structure TradeRow where
  trade_id : String
  user_id : String
  order_id : Option String
  description : String
  deriving Repr, DecidableEq

/-- The call `await postgres_store.store_trade(trade_id=…, user_id=…,
order_id=…, description=…)`: attribute lookup on the store object
dispatches into the class method table and raises `AttributeError` when the
class defines no such method. -/
def callStoreTrade (userId : String) (t : ExecutedTrade) : Except String TradeRow :=
  if postgresStoreMethods.contains "store_trade" then
    .ok { trade_id := t.trade_id.getD ""
          user_id := userId
          order_id := t.order_id
          description := t.description.getD "" }
  else
    .error "AttributeError: PostgresStore object has no attribute store_trade"

/-- The audit loop of `respond_trade`: the rows actually appended to the
store before the node returns (each per-trade exception is caught, logged
as a warning, and skipped). -/
def respondTradeAudit (userId : String) (executed : List ExecutedTrade) :
    List TradeRow :=
  executed.foldl (fun rows t =>
    match callStoreTrade userId t with
    | .ok row => rows ++ [row]
    | .error _ => rows) []

/-- C3 (the code violates the claim): `PostgresStore` defines no
`store_trade` method, so every `store_trade` call in the audit loop raises
`AttributeError`, the exception handler swallows it, and no Trade audit row
is ever appended — for every successfully executed trade list the set of
appended rows is empty, although `respond_trade` still returns normally. -/
theorem respond_trade_audit_never_stores (userId : String)
    (executed : List ExecutedTrade) :
    respondTradeAudit userId executed = [] ∧
    postgresStoreMethods.contains "store_trade" = false ∧
    callStoreTrade userId ⟨some "t1", some "o1", some "BUY 1 AAPL @ market"⟩ =
      .error "AttributeError: PostgresStore object has no attribute store_trade" := by
  have hc : postgresStoreMethods.contains "store_trade" = false := by rfl
  refine ⟨?_, hc, by rw [callStoreTrade, hc]; rfl⟩
  unfold respondTradeAudit
  have hstep : ∀ (l : List ExecutedTrade) (acc : List TradeRow),
      l.foldl (fun rows t =>
        match callStoreTrade userId t with
        | .ok row => rows ++ [row]
        | .error _ => rows) acc = acc := by
    intro l
    induction l with
    | nil => intro acc; rfl
    | cons t l ih =>
      intro acc
      have : callStoreTrade userId t =
          .error "AttributeError: PostgresStore object has no attribute store_trade" := by
        rw [callStoreTrade, hc]; rfl
      simp only [List.foldl_cons, this]
      exact ih acc
  exact hstep executed []

/-! ## Summarization pipeline (`alex/memory/postgres_store.py`,
`alex/memory/summarizer.py`)

A relational model of the tables the pipeline touches.  Dates are day
numbers; a `days` time-tree row carries the calendar attributes the SQL
joins use.  The generative model, the embedder and the calendar are opaque
parameters bundled in `SummarizerOracle` (the spec treats model adapters
as external collaborators; `gen…` stands for the prompt-format /
`generate_content` / `_parse_summary_response` composition, returning the
summary text and its topic labels). -/

/-- A `days` table row (`ensure_time_tree`). -/
structure DayRow where
  date : Nat
  year : Nat
  month : Nat
  day : Nat
  week_number : Nat
  day_of_week : Nat
  deriving Repr, DecidableEq

/-- An `interactions` table row (the columns the pipeline and semantic
search read). -/
structure InteractionRow where
  id : String
  date : Nat
  timestamp : Nat
  user_message : String
  assistant_response : String
  intent : Option String
  embedding : Option (List ℚ)
  deriving Repr, DecidableEq

/-- A `daily_summaries` row, keyed by `date`. -/
structure DailySummaryRow where
  date : Nat
  content : String
  key_topics : List String
  interaction_count : Nat
  model_used : String
  embedding : Option (List ℚ)
  deriving Repr, DecidableEq

/-- A `weekly_summaries` row, keyed by `(year, week)` (the string
`week_id = "YYYY-Wnn"` round-trips through `parts = week_id.split("-W")`). -/
structure WeeklySummaryRow where
  year : Nat
  week : Nat
  content : String
  key_themes : List String
  daily_summary_count : Nat
  total_interactions : Nat
  model_used : String
  embedding : Option (List ℚ)
  deriving Repr, DecidableEq

/-- A `monthly_summaries` row, keyed by `(year, month)`. -/
structure MonthlySummaryRow where
  year : Nat
  month : Nat
  content : String
  key_themes : List String
  weekly_summary_count : Nat
  total_interactions : Nat
  model_used : String
  embedding : Option (List ℚ)
  deriving Repr, DecidableEq

/-- The database state the pipeline reads and writes. -/
structure MemoryDB where
  days : List DayRow
  interactions : List InteractionRow
  daily_summaries : List DailySummaryRow
  weekly_summaries : List WeeklySummaryRow
  monthly_summaries : List MonthlySummaryRow
  deriving Repr, DecidableEq

/-- External collaborators of the summarizer. -/
structure SummarizerOracle where
  genDaily : List InteractionRow → String × List String
  genWeekly : List DailySummaryRow → String × List String
  genMonthly : List WeeklySummaryRow → String × List String
  embed : String → Option (List ℚ)
  cal : Nat → DayRow
  flashModel : String
  proModel : String

/-- `EXISTS` interaction on a date. -/
def hasInter (db : MemoryDB) (d : Nat) : Bool :=
  db.interactions.any (fun i => i.date = d)

/-- `EXISTS` daily summary for a date. -/
def hasDaily (db : MemoryDB) (d : Nat) : Bool :=
  db.daily_summaries.any (fun s => s.date = d)

/-- `EXISTS` weekly summary for an ISO week. -/
def hasWeekly (db : MemoryDB) (y w : Nat) : Bool :=
  db.weekly_summaries.any (fun s => s.year = y ∧ s.week = w)

/-- `EXISTS` monthly summary for a month. -/
def hasMonthly (db : MemoryDB) (y m : Nat) : Bool :=
  db.monthly_summaries.any (fun s => s.year = y ∧ s.month = m)

/-- `ORDER BY … DESC` on dates. -/
def sortDescNat (l : List Nat) : List Nat :=
  l.insertionSort (· ≥ ·)

/-- `ORDER BY a DESC, b DESC` on pairs. -/
def sortDescPair (l : List (Nat × Nat)) : List (Nat × Nat) :=
  l.insertionSort (fun a b => a.1 > b.1 ∨ (a.1 = b.1 ∧ a.2 ≥ b.2))

/-- `get_unsummarized_days` before `LIMIT`: dates of day rows having an
interaction and no daily summary, distinct, newest first. -/
def unsummarizedDaysAll (db : MemoryDB) : List Nat :=
  sortDescNat
    (((db.days.filter (fun d => hasInter db d.date ∧ ¬ hasDaily db d.date)).map
      (·.date)).dedup)

/-- `get_unsummarized_days(limit)`. -/
def getUnsummarizedDays (db : MemoryDB) (limit : Nat) : List Nat :=
  (unsummarizedDaysAll db).take limit

/-- `get_interactions_for_date` (`ORDER BY timestamp`). -/
def getInteractionsForDate (db : MemoryDB) (d : Nat) : List InteractionRow :=
  (db.interactions.filter (fun i => i.date = d)).insertionSort
    (fun a b => a.timestamp ≤ b.timestamp)

/-- `ensure_time_tree`: `INSERT … ON CONFLICT (date) DO NOTHING`. -/
def ensureTimeTree (cal : Nat → DayRow) (db : MemoryDB) (d : Nat) : MemoryDB :=
  if db.days.any (fun r => r.date = d) then db
  else { db with days := db.days ++ [cal d] }

/-- `create_daily_summary`: `INSERT … ON CONFLICT (date) DO UPDATE`. -/
def upsertDaily (db : MemoryDB) (row : DailySummaryRow) : MemoryDB :=
  if hasDaily db row.date then
    { db with daily_summaries :=
        db.daily_summaries.map (fun r => if r.date = row.date then row else r) }
  else
    { db with daily_summaries := db.daily_summaries ++ [row] }

/-- `create_weekly_summary`: upsert keyed by `week_id`. -/
def upsertWeekly (db : MemoryDB) (row : WeeklySummaryRow) : MemoryDB :=
  if hasWeekly db row.year row.week then
    { db with weekly_summaries :=
        (db.weekly_summaries.map
          (fun r => if r.year = row.year ∧ r.week = row.week then row else r)) }
  else
    { db with weekly_summaries := db.weekly_summaries ++ [row] }

/-- `create_monthly_summary`: upsert keyed by `month_id`. -/
def upsertMonthly (db : MemoryDB) (row : MonthlySummaryRow) : MemoryDB :=
  if hasMonthly db row.year row.month then
    { db with monthly_summaries :=
        (db.monthly_summaries.map
          (fun r => if r.year = row.year ∧ r.month = row.month then row else r)) }
  else
    { db with monthly_summaries := db.monthly_summaries ++ [row] }

/-- Outcome of one `summarize_…` unit. -/
inductive SummStatus where
  | completed
  | skipped
  deriving Repr, DecidableEq

/-- `summarize_day(date)`. -/
def summarizeDay (o : SummarizerOracle) (db : MemoryDB) (d : Nat) :
    MemoryDB × SummStatus :=
  if (getInteractionsForDate db d).isEmpty then (db, .skipped)
  else
    (upsertDaily (ensureTimeTree o.cal db d)
      { date := d
        content := (o.genDaily (getInteractionsForDate db d)).1
        key_topics := (o.genDaily (getInteractionsForDate db d)).2
        interaction_count := (getInteractionsForDate db d).length
        model_used := o.flashModel
        embedding := o.embed (o.genDaily (getInteractionsForDate db d)).1 },
      .completed)

/-- `get_daily_summaries_for_week` (`ORDER BY ds.date`). -/
def getDailySummariesForWeek (db : MemoryDB) (y w : Nat) : List DailySummaryRow :=
  (db.daily_summaries.filter (fun ds =>
    db.days.any (fun d => d.date = ds.date ∧ d.year = y ∧ d.week_number = w))).insertionSort
      (fun a b => a.date ≤ b.date)

/-- `get_unsummarized_weeks` before `LIMIT`. -/
def unsummarizedWeeksAll (db : MemoryDB) : List (Nat × Nat) :=
  sortDescPair
    (((db.days.filter (fun d =>
        hasDaily db d.date ∧ ¬ hasWeekly db d.year d.week_number)).map
      (fun d => (d.year, d.week_number))).dedup)

/-- `get_unsummarized_weeks(limit)`. -/
def getUnsummarizedWeeks (db : MemoryDB) (limit : Nat) : List (Nat × Nat) :=
  (unsummarizedWeeksAll db).take limit

/-- `summarize_week(week_id)`. -/
def summarizeWeek (o : SummarizerOracle) (db : MemoryDB) (y w : Nat) :
    MemoryDB × SummStatus :=
  if (getDailySummariesForWeek db y w).isEmpty then (db, .skipped)
  else
    (upsertWeekly db
      { year := y
        week := w
        content := (o.genWeekly (getDailySummariesForWeek db y w)).1
        key_themes := (o.genWeekly (getDailySummariesForWeek db y w)).2
        daily_summary_count := (getDailySummariesForWeek db y w).length
        total_interactions :=
          ((getDailySummariesForWeek db y w).map (·.interaction_count)).sum
        model_used := o.flashModel
        embedding := o.embed (o.genWeekly (getDailySummariesForWeek db y w)).1 },
      .completed)

/-- `get_weekly_summaries_for_month` (`DISTINCT ON (week_id) … ORDER BY
week_id`; rows are unique per week id, so this is the filtered join in
week order). -/
def getWeeklySummariesForMonth (db : MemoryDB) (y m : Nat) : List WeeklySummaryRow :=
  (db.weekly_summaries.filter (fun ws =>
    db.days.any (fun d =>
      ws.year = d.year ∧ ws.week = d.week_number ∧ d.year = y ∧ d.month = m))).insertionSort
        (fun a b => a.year < b.year ∨ (a.year = b.year ∧ a.week ≤ b.week))

/-- `get_unsummarized_months` before `LIMIT`. -/
def unsummarizedMonthsAll (db : MemoryDB) : List (Nat × Nat) :=
  sortDescPair
    (((db.days.filter (fun d =>
        (db.weekly_summaries.any (fun ws => ws.year = d.year ∧ ws.week = d.week_number)) ∧
          ¬ hasMonthly db d.year d.month)).map
      (fun d => (d.year, d.month))).dedup)

/-- `get_unsummarized_months(limit)`. -/
def getUnsummarizedMonths (db : MemoryDB) (limit : Nat) : List (Nat × Nat) :=
  (unsummarizedMonthsAll db).take limit

/-- `summarize_month(month_id)`. -/
def summarizeMonth (o : SummarizerOracle) (db : MemoryDB) (y m : Nat) :
    MemoryDB × SummStatus :=
  if (getWeeklySummariesForMonth db y m).isEmpty then (db, .skipped)
  else
    (upsertMonthly db
      { year := y
        month := m
        content := (o.genMonthly (getWeeklySummariesForMonth db y m)).1
        key_themes := (o.genMonthly (getWeeklySummariesForMonth db y m)).2
        weekly_summary_count := (getWeeklySummariesForMonth db y m).length
        total_interactions :=
          ((getWeeklySummariesForMonth db y m).map (·.total_interactions)).sum
        model_used := o.proModel
        embedding := o.embed (o.genMonthly (getWeeklySummariesForMonth db y m)).1 },
      .completed)

/-- The `{processed, completed, skipped}` counters of a `run_…` call (the
`errors` list is empty in this model: the oracle is total). -/
structure RunResults where
  processed : Nat
  completed : Nat
  skipped : Nat
  deriving Repr, DecidableEq

/-- Loop body of `run_daily_summarization`. -/
def dailyStep (o : SummarizerOracle) (st : MemoryDB × RunResults) (d : Nat) :
    MemoryDB × RunResults :=
  match (summarizeDay o st.1 d).2 with
  | .completed =>
    ((summarizeDay o st.1 d).1, ⟨st.2.processed + 1, st.2.completed + 1, st.2.skipped⟩)
  | .skipped =>
    ((summarizeDay o st.1 d).1, ⟨st.2.processed + 1, st.2.completed, st.2.skipped + 1⟩)

/-- `run_daily_summarization(max_days)`. -/
def runDailySummarization (o : SummarizerOracle) (db : MemoryDB)
    (maxDays : Nat := 7) : MemoryDB × RunResults :=
  (getUnsummarizedDays db maxDays).foldl (dailyStep o) (db, ⟨0, 0, 0⟩)

/-- Loop body of `run_weekly_summarization`. -/
def weeklyStep (o : SummarizerOracle) (st : MemoryDB × RunResults)
    (yw : Nat × Nat) : MemoryDB × RunResults :=
  match (summarizeWeek o st.1 yw.1 yw.2).2 with
  | .completed =>
    ((summarizeWeek o st.1 yw.1 yw.2).1, ⟨st.2.processed + 1, st.2.completed + 1, st.2.skipped⟩)
  | .skipped =>
    ((summarizeWeek o st.1 yw.1 yw.2).1, ⟨st.2.processed + 1, st.2.completed, st.2.skipped + 1⟩)

/-- `run_weekly_summarization(max_weeks)`. -/
def runWeeklySummarization (o : SummarizerOracle) (db : MemoryDB)
    (maxWeeks : Nat := 4) : MemoryDB × RunResults :=
  (getUnsummarizedWeeks db maxWeeks).foldl (weeklyStep o) (db, ⟨0, 0, 0⟩)

/-- Loop body of `run_monthly_summarization`. -/
def monthlyStep (o : SummarizerOracle) (st : MemoryDB × RunResults)
    (ym : Nat × Nat) : MemoryDB × RunResults :=
  match (summarizeMonth o st.1 ym.1 ym.2).2 with
  | .completed =>
    ((summarizeMonth o st.1 ym.1 ym.2).1, ⟨st.2.processed + 1, st.2.completed + 1, st.2.skipped⟩)
  | .skipped =>
    ((summarizeMonth o st.1 ym.1 ym.2).1, ⟨st.2.processed + 1, st.2.completed, st.2.skipped + 1⟩)

/-- `run_monthly_summarization(max_months)`. -/
def runMonthlySummarization (o : SummarizerOracle) (db : MemoryDB)
    (maxMonths : Nat := 2) : MemoryDB × RunResults :=
  (getUnsummarizedMonths db maxMonths).foldl (monthlyStep o) (db, ⟨0, 0, 0⟩)

/-- `run_full_summarization_pipeline()`: daily, then weekly, then monthly,
with the default caps. -/
def runFullSummarizationPipeline (o : SummarizerOracle) (db : MemoryDB) :
    MemoryDB × (RunResults × RunResults × RunResults) :=
  ((runMonthlySummarization o
      (runWeeklySummarization o (runDailySummarization o db 7).1 4).1 2).1,
   ((runDailySummarization o db 7).2,
    (runWeeklySummarization o (runDailySummarization o db 7).1 4).2,
    (runMonthlySummarization o
      (runWeeklySummarization o (runDailySummarization o db 7).1 4).1 2).2))

/-! ### Frame and coverage lemmas for the daily tier -/

theorem hasInter_congr (db db' : MemoryDB) (h : db'.interactions = db.interactions)
    (x : Nat) : hasInter db' x = hasInter db x := by
  unfold hasInter; rw [h]

theorem summarizeDay_frame (o : SummarizerOracle) (db : MemoryDB) (d : Nat) :
    (summarizeDay o db d).1.interactions = db.interactions ∧
    (summarizeDay o db d).1.weekly_summaries = db.weekly_summaries ∧
    (summarizeDay o db d).1.monthly_summaries = db.monthly_summaries := by
  simp only [summarizeDay, upsertDaily, ensureTimeTree]
  repeat' split
  all_goals exact ⟨rfl, rfl, rfl⟩

theorem summarizeDay_days (o : SummarizerOracle) (db : MemoryDB) (d : Nat)
    (h : db.days.any (fun r => r.date = d) = true) :
    (summarizeDay o db d).1.days = db.days := by
  simp only [summarizeDay, upsertDaily, ensureTimeTree, h, if_true]
  repeat' split
  all_goals rfl

theorem hasDaily_upsert_mono (db : MemoryDB) (row : DailySummaryRow) (x : Nat)
    (h : hasDaily db x = true) : hasDaily (upsertDaily db row) x = true := by
  unfold hasDaily at h ⊢
  unfold upsertDaily
  rw [List.any_eq_true] at h
  obtain ⟨s, hs, hsx⟩ := h
  split
  · simp only [List.any_eq_true, List.mem_map]
    by_cases hsr : s.date = row.date
    · refine ⟨row, ⟨s, hs, by simp [hsr]⟩, ?_⟩
      simp only [decide_eq_true_eq] at hsx ⊢
      rw [← hsr, hsx]
    · exact ⟨s, ⟨s, hs, by simp [hsr]⟩, hsx⟩
  · rw [List.any_eq_true]
    exact ⟨s, List.mem_append_left _ hs, hsx⟩

theorem hasDaily_upsert_self (db : MemoryDB) (row : DailySummaryRow) :
    hasDaily (upsertDaily db row) row.date = true := by
  unfold upsertDaily
  split
  · next h =>
    unfold hasDaily at h ⊢
    rw [List.any_eq_true] at h
    obtain ⟨s, hs, hsx⟩ := h
    simp only [List.any_eq_true, List.mem_map]
    simp only [decide_eq_true_eq] at hsx
    exact ⟨row, ⟨s, hs, by simp [hsx]⟩, by simp⟩
  · unfold hasDaily
    rw [List.any_eq_true]
    exact ⟨row, List.mem_append_right _ (List.mem_singleton.2 rfl), by simp⟩

theorem hasDaily_ensure (cal : Nat → DayRow) (db : MemoryDB) (d x : Nat) :
    hasDaily (ensureTimeTree cal db d) x = hasDaily db x := by
  unfold ensureTimeTree
  split <;> rfl

theorem getInteractionsForDate_ne_nil (db : MemoryDB) (d : Nat)
    (h : hasInter db d = true) :
    (getInteractionsForDate db d).isEmpty = false := by
  unfold hasInter at h
  rw [List.any_eq_true] at h
  obtain ⟨i, hi, hid⟩ := h
  have hmem : i ∈ getInteractionsForDate db d := by
    unfold getInteractionsForDate
    rw [(List.perm_insertionSort _ _).mem_iff]
    exact List.mem_filter.2 ⟨hi, hid⟩
  rcases hg : getInteractionsForDate db d with _ | ⟨a, l⟩
  · rw [hg] at hmem; exact absurd hmem (List.not_mem_nil i)
  · rfl

theorem summarizeDay_hasDaily_mono (o : SummarizerOracle) (db : MemoryDB)
    (d x : Nat) (h : hasDaily db x = true) :
    hasDaily (summarizeDay o db d).1 x = true := by
  unfold summarizeDay
  split
  · exact h
  · exact hasDaily_upsert_mono _ _ _ (by rw [hasDaily_ensure]; exact h)

theorem summarizeDay_completes (o : SummarizerOracle) (db : MemoryDB) (d : Nat)
    (h : hasInter db d = true) :
    hasDaily (summarizeDay o db d).1 d = true := by
  unfold summarizeDay
  rw [if_neg (by rw [getInteractionsForDate_ne_nil db d h]; exact Bool.noConfusion)]
  exact hasDaily_upsert_self _ _

theorem dailyStep_fst (o : SummarizerOracle) (st : MemoryDB × RunResults) (d : Nat) :
    (dailyStep o st d).1 = (summarizeDay o st.1 d).1 := by
  unfold dailyStep
  split <;> rfl

theorem runDaily_foldl_invariant (o : SummarizerOracle) :
    ∀ (ts : List Nat) (db0 : MemoryDB) (acc : RunResults),
    (∀ d ∈ ts, db0.days.any (fun r => r.date = d) = true) →
    (ts.foldl (dailyStep o) (db0, acc)).1.days = db0.days ∧
    (ts.foldl (dailyStep o) (db0, acc)).1.interactions = db0.interactions ∧
    (ts.foldl (dailyStep o) (db0, acc)).1.weekly_summaries = db0.weekly_summaries ∧
    (ts.foldl (dailyStep o) (db0, acc)).1.monthly_summaries = db0.monthly_summaries ∧
    (∀ x, hasDaily db0 x = true → hasDaily (ts.foldl (dailyStep o) (db0, acc)).1 x = true) ∧
    (∀ d ∈ ts, hasInter db0 d = true →
      hasDaily (ts.foldl (dailyStep o) (db0, acc)).1 d = true) := by
  intro ts
  induction ts with
  | nil =>
    intro db0 acc _
    exact ⟨rfl, rfl, rfl, rfl, fun _ h => h, fun d hd => absurd hd (List.not_mem_nil d)⟩
  | cons t ts ih =>
    intro db0 acc hmem
    have ht : db0.days.any (fun r => r.date = t) = true := hmem t (List.mem_cons_self _ _)
    rw [List.foldl_cons]
    rcases hstep : dailyStep o (db0, acc) t with ⟨db1, acc1⟩
    have hdb1 : db1 = (summarizeDay o db0 t).1 := by
      have := dailyStep_fst o (db0, acc) t
      rw [hstep] at this
      exact this
    have hframe := summarizeDay_frame o db0 t
    have hdays : db1.days = db0.days := by rw [hdb1]; exact summarizeDay_days o db0 t ht
    have hinter : db1.interactions = db0.interactions := by rw [hdb1]; exact hframe.1
    have hweek : db1.weekly_summaries = db0.weekly_summaries := by rw [hdb1]; exact hframe.2.1
    have hmonth : db1.monthly_summaries = db0.monthly_summaries := by
      rw [hdb1]; exact hframe.2.2
    have hmem1 : ∀ d ∈ ts, db1.days.any (fun r => r.date = d) = true := by
      intro d hd
      rw [hdays]
      exact hmem d (List.mem_cons_of_mem _ hd)
    obtain ⟨i1, i2, i3, i4, i5, i6⟩ := ih db1 acc1 hmem1
    refine ⟨by rw [i1, hdays], by rw [i2, hinter], by rw [i3, hweek],
      by rw [i4, hmonth], ?_, ?_⟩
    · intro x hx
      exact i5 x (by rw [hdb1]; exact summarizeDay_hasDaily_mono o db0 t x hx)
    · intro d hd hi
      rcases List.mem_cons.1 hd with rfl | hd'
      · refine i5 d ?_
        rw [hdb1]
        exact summarizeDay_completes o db0 d hi
      · exact i6 d hd' (by rw [← hasInter_congr db0 db1 hinter] at hi; exact hi)

theorem mem_unsummarizedDaysAll (db : MemoryDB) (d : Nat)
    (h : d ∈ unsummarizedDaysAll db) :
    db.days.any (fun r => r.date = d) = true ∧
    hasInter db d = true ∧ hasDaily db d = false := by
  unfold unsummarizedDaysAll sortDescNat at h
  rw [(List.perm_insertionSort _ _).mem_iff, List.mem_dedup, List.mem_map] at h
  obtain ⟨row, hrow, hrd⟩ := h
  obtain ⟨hdays, hcond⟩ := List.mem_filter.1 hrow
  simp only [decide_eq_true_eq, Bool.not_eq_true] at hcond
  refine ⟨List.any_eq_true.2 ⟨row, hdays, by simp [hrd]⟩, ?_, ?_⟩
  · rw [← hrd]; exact hcond.1
  · rw [← hrd]; exact hcond.2

theorem mem_unsummarizedDaysAll_intro (db : MemoryDB) (row : DayRow)
    (hrow : row ∈ db.days) (hi : hasInter db row.date = true)
    (hd : hasDaily db row.date = false) :
    row.date ∈ unsummarizedDaysAll db := by
  unfold unsummarizedDaysAll sortDescNat
  rw [(List.perm_insertionSort _ _).mem_iff, List.mem_dedup, List.mem_map]
  exact ⟨row, List.mem_filter.2 ⟨hrow, by simp [hi, hd]⟩, rfl⟩

theorem runDaily_covers (o : SummarizerOracle) (db : MemoryDB) (cap : Nat)
    (hcap : (unsummarizedDaysAll db).length ≤ cap) :
    (runDailySummarization o db cap).1.days = db.days ∧
    (runDailySummarization o db cap).1.interactions = db.interactions ∧
    (runDailySummarization o db cap).1.weekly_summaries = db.weekly_summaries ∧
    (runDailySummarization o db cap).1.monthly_summaries = db.monthly_summaries ∧
    (∀ x, hasDaily db x = true → hasDaily (runDailySummarization o db cap).1 x = true) ∧
    unsummarizedDaysAll (runDailySummarization o db cap).1 = [] := by
  have htake : getUnsummarizedDays db cap = unsummarizedDaysAll db :=
    List.take_of_length_le hcap
  have hinv := runDaily_foldl_invariant o (getUnsummarizedDays db cap) db ⟨0, 0, 0⟩
    (by
      intro d hd
      rw [htake] at hd
      exact (mem_unsummarizedDaysAll db d hd).1)
  unfold runDailySummarization
  obtain ⟨i1, i2, i3, i4, i5, i6⟩ := hinv
  refine ⟨i1, i2, i3, i4, i5, ?_⟩
  set db1 := ((getUnsummarizedDays db cap).foldl (dailyStep o) (db, ⟨0, 0, 0⟩)).1 with hdb1
  unfold unsummarizedDaysAll
  have hfilter : db1.days.filter
      (fun r => hasInter db1 r.date ∧ ¬ hasDaily db1 r.date) = [] := by
    rw [List.filter_eq_nil]
    intro row hrow
    simp only [decide_eq_true_eq, Bool.not_eq_true, not_and]
    intro hi
    rw [hasInter_congr db db1 i2] at hi
    rw [i1] at hrow
    by_cases hdl : hasDaily db row.date = true
    · simp [i5 row.date hdl]
    · have hmem : row.date ∈ unsummarizedDaysAll db :=
        mem_unsummarizedDaysAll_intro db row hrow hi (by simpa using hdl)
      rw [← htake] at hmem
      simp [i6 row.date hmem hi]
  rw [hfilter]
  rfl

/-! ### Frame and coverage lemmas for the weekly tier -/

theorem hasDaily_congr (db db' : MemoryDB)
    (h : db'.daily_summaries = db.daily_summaries) (x : Nat) :
    hasDaily db' x = hasDaily db x := by
  unfold hasDaily; rw [h]

theorem hasWeekly_congr (db db' : MemoryDB)
    (h : db'.weekly_summaries = db.weekly_summaries) (y w : Nat) :
    hasWeekly db' y w = hasWeekly db y w := by
  unfold hasWeekly; rw [h]

theorem summarizeWeek_frame (o : SummarizerOracle) (db : MemoryDB) (y w : Nat) :
    (summarizeWeek o db y w).1.days = db.days ∧
    (summarizeWeek o db y w).1.interactions = db.interactions ∧
    (summarizeWeek o db y w).1.daily_summaries = db.daily_summaries ∧
    (summarizeWeek o db y w).1.monthly_summaries = db.monthly_summaries := by
  simp only [summarizeWeek, upsertWeekly]
  repeat' split
  all_goals exact ⟨rfl, rfl, rfl, rfl⟩

theorem hasWeekly_upsert_mono (db : MemoryDB) (row : WeeklySummaryRow) (y w : Nat)
    (h : hasWeekly db y w = true) :
    hasWeekly (upsertWeekly db row) y w = true := by
  unfold hasWeekly at h ⊢
  unfold upsertWeekly
  rw [List.any_eq_true] at h
  obtain ⟨s, hs, hsx⟩ := h
  simp only [decide_eq_true_eq] at hsx
  split
  · simp only [List.any_eq_true, List.mem_map]
    by_cases hsr : s.year = row.year ∧ s.week = row.week
    · refine ⟨row, ⟨s, hs, by simp [hsr.1, hsr.2]⟩, ?_⟩
      simp only [decide_eq_true_eq]
      exact ⟨by rw [← hsr.1, hsx.1], by rw [← hsr.2, hsx.2]⟩
    · exact ⟨s, ⟨s, hs, by simp [hsr]⟩, by simp [hsx]⟩
  · rw [List.any_eq_true]
    exact ⟨s, List.mem_append_left _ hs, by simp [hsx]⟩

theorem hasWeekly_upsert_self (db : MemoryDB) (row : WeeklySummaryRow) :
    hasWeekly (upsertWeekly db row) row.year row.week = true := by
  unfold upsertWeekly
  split
  · next h =>
    unfold hasWeekly at h ⊢
    rw [List.any_eq_true] at h
    obtain ⟨s, hs, hsx⟩ := h
    simp only [decide_eq_true_eq] at hsx
    simp only [List.any_eq_true, List.mem_map]
    exact ⟨row, ⟨s, hs, by simp [hsx.1, hsx.2]⟩, by simp⟩
  · unfold hasWeekly
    rw [List.any_eq_true]
    exact ⟨row, List.mem_append_right _ (List.mem_singleton.2 rfl), by simp⟩

theorem getDailySummariesForWeek_ne_nil (db : MemoryDB) (y w : Nat) (r : DayRow)
    (hr : r ∈ db.days) (hy : r.year = y) (hw : r.week_number = w)
    (hd : hasDaily db r.date = true) :
    (getDailySummariesForWeek db y w).isEmpty = false := by
  unfold hasDaily at hd
  rw [List.any_eq_true] at hd
  obtain ⟨s, hs, hsd⟩ := hd
  simp only [decide_eq_true_eq] at hsd
  have hmem : s ∈ getDailySummariesForWeek db y w := by
    unfold getDailySummariesForWeek
    rw [(List.perm_insertionSort _ _).mem_iff]
    refine List.mem_filter.2 ⟨hs, ?_⟩
    simp only [List.any_eq_true]
    exact ⟨r, hr, by simp [hy, hw, hsd]⟩
  rcases hg : getDailySummariesForWeek db y w with _ | ⟨a, l⟩
  · rw [hg] at hmem; exact absurd hmem (List.not_mem_nil s)
  · rfl

theorem summarizeWeek_hasWeekly_mono (o : SummarizerOracle) (db : MemoryDB)
    (y w y' w' : Nat) (h : hasWeekly db y' w' = true) :
    hasWeekly (summarizeWeek o db y w).1 y' w' = true := by
  unfold summarizeWeek
  split
  · exact h
  · exact hasWeekly_upsert_mono _ _ _ _ h

theorem summarizeWeek_completes (o : SummarizerOracle) (db : MemoryDB) (y w : Nat)
    (r : DayRow) (hr : r ∈ db.days) (hy : r.year = y) (hw : r.week_number = w)
    (hd : hasDaily db r.date = true) :
    hasWeekly (summarizeWeek o db y w).1 y w = true := by
  unfold summarizeWeek
  rw [if_neg (by
    rw [getDailySummariesForWeek_ne_nil db y w r hr hy hw hd]
    exact Bool.noConfusion)]
  exact hasWeekly_upsert_self _ _

theorem weeklyStep_fst (o : SummarizerOracle) (st : MemoryDB × RunResults)
    (yw : Nat × Nat) : (weeklyStep o st yw).1 = (summarizeWeek o st.1 yw.1 yw.2).1 := by
  unfold weeklyStep
  split <;> rfl

/-- Precondition of a selectable week: some day row of that week has a
daily summary. -/
def weekHasSource (db : MemoryDB) (yw : Nat × Nat) : Prop :=
  ∃ r ∈ db.days, r.year = yw.1 ∧ r.week_number = yw.2 ∧ hasDaily db r.date = true

theorem runWeekly_foldl_invariant (o : SummarizerOracle) :
    ∀ (ts : List (Nat × Nat)) (db0 : MemoryDB) (acc : RunResults),
    (∀ yw ∈ ts, weekHasSource db0 yw) →
    (ts.foldl (weeklyStep o) (db0, acc)).1.days = db0.days ∧
    (ts.foldl (weeklyStep o) (db0, acc)).1.interactions = db0.interactions ∧
    (ts.foldl (weeklyStep o) (db0, acc)).1.daily_summaries = db0.daily_summaries ∧
    (ts.foldl (weeklyStep o) (db0, acc)).1.monthly_summaries = db0.monthly_summaries ∧
    (∀ y w, hasWeekly db0 y w = true →
      hasWeekly (ts.foldl (weeklyStep o) (db0, acc)).1 y w = true) ∧
    (∀ yw ∈ ts, hasWeekly (ts.foldl (weeklyStep o) (db0, acc)).1 yw.1 yw.2 = true) := by
  intro ts
  induction ts with
  | nil =>
    intro db0 acc _
    exact ⟨rfl, rfl, rfl, rfl, fun _ _ h => h,
      fun yw hyw => absurd hyw (List.not_mem_nil yw)⟩
  | cons t ts ih =>
    intro db0 acc hmem
    obtain ⟨r, hr, hry, hrw, hrd⟩ := hmem t (List.mem_cons_self _ _)
    rw [List.foldl_cons]
    rcases hstep : weeklyStep o (db0, acc) t with ⟨db1, acc1⟩
    have hdb1 : db1 = (summarizeWeek o db0 t.1 t.2).1 := by
      have := weeklyStep_fst o (db0, acc) t
      rw [hstep] at this
      exact this
    have hframe := summarizeWeek_frame o db0 t.1 t.2
    have hdays : db1.days = db0.days := by rw [hdb1]; exact hframe.1
    have hinter : db1.interactions = db0.interactions := by rw [hdb1]; exact hframe.2.1
    have hdaily : db1.daily_summaries = db0.daily_summaries := by
      rw [hdb1]; exact hframe.2.2.1
    have hmonth : db1.monthly_summaries = db0.monthly_summaries := by
      rw [hdb1]; exact hframe.2.2.2
    have hmem1 : ∀ yw ∈ ts, weekHasSource db1 yw := by
      intro yw hyw
      obtain ⟨r', hr', h1, h2, h3⟩ := hmem yw (List.mem_cons_of_mem _ hyw)
      refine ⟨r', by rw [hdays]; exact hr', h1, h2, ?_⟩
      rw [hasDaily_congr db0 db1 hdaily]
      exact h3
    obtain ⟨i1, i2, i3, i4, i5, i6⟩ := ih db1 acc1 hmem1
    refine ⟨by rw [i1, hdays], by rw [i2, hinter], by rw [i3, hdaily],
      by rw [i4, hmonth], ?_, ?_⟩
    · intro y w hyw
      refine i5 y w ?_
      rw [hdb1]
      exact summarizeWeek_hasWeekly_mono o db0 t.1 t.2 y w hyw
    · intro yw hyw
      rcases List.mem_cons.1 hyw with rfl | hyw'
      · refine i5 yw.1 yw.2 ?_
        rw [hdb1]
        exact summarizeWeek_completes o db0 yw.1 yw.2 r hr hry hrw hrd
      · exact i6 yw hyw'

theorem mem_unsummarizedWeeksAll (db : MemoryDB) (yw : Nat × Nat)
    (h : yw ∈ unsummarizedWeeksAll db) :
    weekHasSource db yw ∧ hasWeekly db yw.1 yw.2 = false := by
  unfold unsummarizedWeeksAll sortDescPair at h
  rw [(List.perm_insertionSort _ _).mem_iff, List.mem_dedup, List.mem_map] at h
  obtain ⟨row, hrow, hryw⟩ := h
  obtain ⟨hdays, hcond⟩ := List.mem_filter.1 hrow
  simp only [decide_eq_true_eq, Bool.not_eq_true] at hcond
  refine ⟨⟨row, hdays, ?_, ?_, hcond.1⟩, ?_⟩
  · rw [← hryw]
  · rw [← hryw]
  · rw [← hryw]; exact hcond.2

theorem mem_unsummarizedWeeksAll_intro (db : MemoryDB) (row : DayRow)
    (hrow : row ∈ db.days) (hd : hasDaily db row.date = true)
    (hw : hasWeekly db row.year row.week_number = false) :
    (row.year, row.week_number) ∈ unsummarizedWeeksAll db := by
  unfold unsummarizedWeeksAll sortDescPair
  rw [(List.perm_insertionSort _ _).mem_iff, List.mem_dedup, List.mem_map]
  exact ⟨row, List.mem_filter.2 ⟨hrow, by simp [hd, hw]⟩, rfl⟩

theorem runWeekly_covers (o : SummarizerOracle) (db : MemoryDB) (cap : Nat)
    (hcap : (unsummarizedWeeksAll db).length ≤ cap) :
    (runWeeklySummarization o db cap).1.days = db.days ∧
    (runWeeklySummarization o db cap).1.interactions = db.interactions ∧
    (runWeeklySummarization o db cap).1.daily_summaries = db.daily_summaries ∧
    (runWeeklySummarization o db cap).1.monthly_summaries = db.monthly_summaries ∧
    (∀ y w, hasWeekly db y w = true →
      hasWeekly (runWeeklySummarization o db cap).1 y w = true) ∧
    unsummarizedWeeksAll (runWeeklySummarization o db cap).1 = [] := by
  have htake : getUnsummarizedWeeks db cap = unsummarizedWeeksAll db :=
    List.take_of_length_le hcap
  have hinv := runWeekly_foldl_invariant o (getUnsummarizedWeeks db cap) db ⟨0, 0, 0⟩
    (by
      intro yw hyw
      rw [htake] at hyw
      exact (mem_unsummarizedWeeksAll db yw hyw).1)
  unfold runWeeklySummarization
  obtain ⟨i1, i2, i3, i4, i5, i6⟩ := hinv
  refine ⟨i1, i2, i3, i4, i5, ?_⟩
  set db1 := ((getUnsummarizedWeeks db cap).foldl (weeklyStep o) (db, ⟨0, 0, 0⟩)).1
    with hdb1
  unfold unsummarizedWeeksAll
  have hfilter : db1.days.filter
      (fun r => hasDaily db1 r.date ∧ ¬ hasWeekly db1 r.year r.week_number) = [] := by
    rw [List.filter_eq_nil]
    intro row hrow
    simp only [decide_eq_true_eq, Bool.not_eq_true, not_and]
    intro hdl
    rw [hasDaily_congr db db1 i3] at hdl
    rw [i1] at hrow
    by_cases hwk : hasWeekly db row.year row.week_number = true
    · simp [i5 row.year row.week_number hwk]
    · have hmem : (row.year, row.week_number) ∈ unsummarizedWeeksAll db :=
        mem_unsummarizedWeeksAll_intro db row hrow hdl (by simpa using hwk)
      rw [← htake] at hmem
      simp [i6 (row.year, row.week_number) hmem]
  rw [hfilter]
  rfl

/-! ### Frame and coverage lemmas for the monthly tier -/

theorem summarizeMonth_frame (o : SummarizerOracle) (db : MemoryDB) (y m : Nat) :
    (summarizeMonth o db y m).1.days = db.days ∧
    (summarizeMonth o db y m).1.interactions = db.interactions ∧
    (summarizeMonth o db y m).1.daily_summaries = db.daily_summaries ∧
    (summarizeMonth o db y m).1.weekly_summaries = db.weekly_summaries := by
  simp only [summarizeMonth, upsertMonthly]
  repeat' split
  all_goals exact ⟨rfl, rfl, rfl, rfl⟩

theorem hasMonthly_upsert_mono (db : MemoryDB) (row : MonthlySummaryRow) (y m : Nat)
    (h : hasMonthly db y m = true) :
    hasMonthly (upsertMonthly db row) y m = true := by
  unfold hasMonthly at h ⊢
  unfold upsertMonthly
  rw [List.any_eq_true] at h
  obtain ⟨s, hs, hsx⟩ := h
  simp only [decide_eq_true_eq] at hsx
  split
  · simp only [List.any_eq_true, List.mem_map]
    by_cases hsr : s.year = row.year ∧ s.month = row.month
    · refine ⟨row, ⟨s, hs, by simp [hsr.1, hsr.2]⟩, ?_⟩
      simp only [decide_eq_true_eq]
      exact ⟨by rw [← hsr.1, hsx.1], by rw [← hsr.2, hsx.2]⟩
    · exact ⟨s, ⟨s, hs, by simp [hsr]⟩, by simp [hsx]⟩
  · rw [List.any_eq_true]
    exact ⟨s, List.mem_append_left _ hs, by simp [hsx]⟩

theorem hasMonthly_upsert_self (db : MemoryDB) (row : MonthlySummaryRow) :
    hasMonthly (upsertMonthly db row) row.year row.month = true := by
  unfold upsertMonthly
  split
  · next h =>
    unfold hasMonthly at h ⊢
    rw [List.any_eq_true] at h
    obtain ⟨s, hs, hsx⟩ := h
    simp only [decide_eq_true_eq] at hsx
    simp only [List.any_eq_true, List.mem_map]
    exact ⟨row, ⟨s, hs, by simp [hsx.1, hsx.2]⟩, by simp⟩
  · unfold hasMonthly
    rw [List.any_eq_true]
    exact ⟨row, List.mem_append_right _ (List.mem_singleton.2 rfl), by simp⟩

theorem getWeeklySummariesForMonth_ne_nil (db : MemoryDB) (y m : Nat) (r : DayRow)
    (hr : r ∈ db.days) (hy : r.year = y) (hm : r.month = m)
    (hw : hasWeekly db r.year r.week_number = true) :
    (getWeeklySummariesForMonth db y m).isEmpty = false := by
  unfold hasWeekly at hw
  rw [List.any_eq_true] at hw
  obtain ⟨s, hs, hsx⟩ := hw
  simp only [decide_eq_true_eq] at hsx
  have hmem : s ∈ getWeeklySummariesForMonth db y m := by
    unfold getWeeklySummariesForMonth
    rw [(List.perm_insertionSort _ _).mem_iff]
    refine List.mem_filter.2 ⟨hs, ?_⟩
    simp only [List.any_eq_true]
    exact ⟨r, hr, by simp [hy, hm, hsx.1, hsx.2]⟩
  rcases hg : getWeeklySummariesForMonth db y m with _ | ⟨a, l⟩
  · rw [hg] at hmem; exact absurd hmem (List.not_mem_nil s)
  · rfl

theorem summarizeMonth_hasMonthly_mono (o : SummarizerOracle) (db : MemoryDB)
    (y m y' m' : Nat) (h : hasMonthly db y' m' = true) :
    hasMonthly (summarizeMonth o db y m).1 y' m' = true := by
  unfold summarizeMonth
  split
  · exact h
  · exact hasMonthly_upsert_mono _ _ _ _ h

theorem summarizeMonth_completes (o : SummarizerOracle) (db : MemoryDB) (y m : Nat)
    (r : DayRow) (hr : r ∈ db.days) (hy : r.year = y) (hm : r.month = m)
    (hw : hasWeekly db r.year r.week_number = true) :
    hasMonthly (summarizeMonth o db y m).1 y m = true := by
  unfold summarizeMonth
  rw [if_neg (by
    rw [getWeeklySummariesForMonth_ne_nil db y m r hr hy hm hw]
    exact Bool.noConfusion)]
  exact hasMonthly_upsert_self _ _

theorem monthlyStep_fst (o : SummarizerOracle) (st : MemoryDB × RunResults)
    (ym : Nat × Nat) :
    (monthlyStep o st ym).1 = (summarizeMonth o st.1 ym.1 ym.2).1 := by
  unfold monthlyStep
  split <;> rfl

/-- Precondition of a selectable month: some day row of that month falls in
a week that already has a weekly summary. -/
def monthHasSource (db : MemoryDB) (ym : Nat × Nat) : Prop :=
  ∃ r ∈ db.days, r.year = ym.1 ∧ r.month = ym.2 ∧
    hasWeekly db r.year r.week_number = true

theorem runMonthly_foldl_invariant (o : SummarizerOracle) :
    ∀ (ts : List (Nat × Nat)) (db0 : MemoryDB) (acc : RunResults),
    (∀ ym ∈ ts, monthHasSource db0 ym) →
    (ts.foldl (monthlyStep o) (db0, acc)).1.days = db0.days ∧
    (ts.foldl (monthlyStep o) (db0, acc)).1.interactions = db0.interactions ∧
    (ts.foldl (monthlyStep o) (db0, acc)).1.daily_summaries = db0.daily_summaries ∧
    (ts.foldl (monthlyStep o) (db0, acc)).1.weekly_summaries = db0.weekly_summaries ∧
    (∀ y m, hasMonthly db0 y m = true →
      hasMonthly (ts.foldl (monthlyStep o) (db0, acc)).1 y m = true) ∧
    (∀ ym ∈ ts, hasMonthly (ts.foldl (monthlyStep o) (db0, acc)).1 ym.1 ym.2 = true) := by
  intro ts
  induction ts with
  | nil =>
    intro db0 acc _
    exact ⟨rfl, rfl, rfl, rfl, fun _ _ h => h,
      fun ym hym => absurd hym (List.not_mem_nil ym)⟩
  | cons t ts ih =>
    intro db0 acc hmem
    obtain ⟨r, hr, hry, hrm, hrw⟩ := hmem t (List.mem_cons_self _ _)
    rw [List.foldl_cons]
    rcases hstep : monthlyStep o (db0, acc) t with ⟨db1, acc1⟩
    have hdb1 : db1 = (summarizeMonth o db0 t.1 t.2).1 := by
      have := monthlyStep_fst o (db0, acc) t
      rw [hstep] at this
      exact this
    have hframe := summarizeMonth_frame o db0 t.1 t.2
    have hdays : db1.days = db0.days := by rw [hdb1]; exact hframe.1
    have hinter : db1.interactions = db0.interactions := by rw [hdb1]; exact hframe.2.1
    have hdaily : db1.daily_summaries = db0.daily_summaries := by
      rw [hdb1]; exact hframe.2.2.1
    have hweek : db1.weekly_summaries = db0.weekly_summaries := by
      rw [hdb1]; exact hframe.2.2.2
    have hmem1 : ∀ ym ∈ ts, monthHasSource db1 ym := by
      intro ym hym
      obtain ⟨r', hr', h1, h2, h3⟩ := hmem ym (List.mem_cons_of_mem _ hym)
      refine ⟨r', by rw [hdays]; exact hr', h1, h2, ?_⟩
      rw [hasWeekly_congr db0 db1 hweek]
      exact h3
    obtain ⟨i1, i2, i3, i4, i5, i6⟩ := ih db1 acc1 hmem1
    refine ⟨by rw [i1, hdays], by rw [i2, hinter], by rw [i3, hdaily],
      by rw [i4, hweek], ?_, ?_⟩
    · intro y m hym
      refine i5 y m ?_
      rw [hdb1]
      exact summarizeMonth_hasMonthly_mono o db0 t.1 t.2 y m hym
    · intro ym hym
      rcases List.mem_cons.1 hym with rfl | hym'
      · refine i5 ym.1 ym.2 ?_
        rw [hdb1]
        exact summarizeMonth_completes o db0 ym.1 ym.2 r hr hry hrm hrw
      · exact i6 ym hym'

theorem mem_unsummarizedMonthsAll (db : MemoryDB) (ym : Nat × Nat)
    (h : ym ∈ unsummarizedMonthsAll db) :
    monthHasSource db ym ∧ hasMonthly db ym.1 ym.2 = false := by
  unfold unsummarizedMonthsAll sortDescPair at h
  rw [(List.perm_insertionSort _ _).mem_iff, List.mem_dedup, List.mem_map] at h
  obtain ⟨row, hrow, hrym⟩ := h
  obtain ⟨hdays, hcond⟩ := List.mem_filter.1 hrow
  simp only [decide_eq_true_eq, Bool.not_eq_true] at hcond
  refine ⟨⟨row, hdays, ?_, ?_, ?_⟩, ?_⟩
  · rw [← hrym]
  · rw [← hrym]
  · unfold hasWeekly
    exact hcond.1
  · rw [← hrym]; exact hcond.2

theorem mem_unsummarizedMonthsAll_intro (db : MemoryDB) (row : DayRow)
    (hrow : row ∈ db.days) (hw : hasWeekly db row.year row.week_number = true)
    (hm : hasMonthly db row.year row.month = false) :
    (row.year, row.month) ∈ unsummarizedMonthsAll db := by
  unfold unsummarizedMonthsAll sortDescPair
  rw [(List.perm_insertionSort _ _).mem_iff, List.mem_dedup, List.mem_map]
  refine ⟨row, List.mem_filter.2 ⟨hrow, ?_⟩, rfl⟩
  simp only [decide_eq_true_eq, Bool.not_eq_true]
  exact ⟨by unfold hasWeekly at hw; exact hw, hm⟩

theorem runMonthly_covers (o : SummarizerOracle) (db : MemoryDB) (cap : Nat)
    (hcap : (unsummarizedMonthsAll db).length ≤ cap) :
    (runMonthlySummarization o db cap).1.days = db.days ∧
    (runMonthlySummarization o db cap).1.interactions = db.interactions ∧
    (runMonthlySummarization o db cap).1.daily_summaries = db.daily_summaries ∧
    (runMonthlySummarization o db cap).1.weekly_summaries = db.weekly_summaries ∧
    (∀ y m, hasMonthly db y m = true →
      hasMonthly (runMonthlySummarization o db cap).1 y m = true) ∧
    unsummarizedMonthsAll (runMonthlySummarization o db cap).1 = [] := by
  have htake : getUnsummarizedMonths db cap = unsummarizedMonthsAll db :=
    List.take_of_length_le hcap
  have hinv := runMonthly_foldl_invariant o (getUnsummarizedMonths db cap) db ⟨0, 0, 0⟩
    (by
      intro ym hym
      rw [htake] at hym
      exact (mem_unsummarizedMonthsAll db ym hym).1)
  unfold runMonthlySummarization
  obtain ⟨i1, i2, i3, i4, i5, i6⟩ := hinv
  refine ⟨i1, i2, i3, i4, i5, ?_⟩
  set db1 := ((getUnsummarizedMonths db cap).foldl (monthlyStep o) (db, ⟨0, 0, 0⟩)).1
    with hdb1
  unfold unsummarizedMonthsAll
  have hfilter : db1.days.filter
      (fun r => (db1.weekly_summaries.any
        (fun ws => ws.year = r.year ∧ ws.week = r.week_number)) ∧
        ¬ hasMonthly db1 r.year r.month) = [] := by
    rw [List.filter_eq_nil]
    intro row hrow
    simp only [decide_eq_true_eq, Bool.not_eq_true, not_and]
    intro hwk
    have hwk' : hasWeekly db row.year row.week_number = true := by
      unfold hasWeekly
      rw [← i4]
      exact hwk
    rw [i1] at hrow
    by_cases hml : hasMonthly db row.year row.month = true
    · simp [i5 row.year row.month hml]
    · have hmem : (row.year, row.month) ∈ unsummarizedMonthsAll db :=
        mem_unsummarizedMonthsAll_intro db row hrow hwk' (by simpa using hml)
      rw [← htake] at hmem
      simp [i6 (row.year, row.month) hmem]
  rw [hfilter]
  rfl

/-! ### Idempotence of the pipeline -/

theorem unsummarizedDaysAll_congr (db db' : MemoryDB)
    (hd : db'.days = db.days) (hi : db'.interactions = db.interactions)
    (hs : db'.daily_summaries = db.daily_summaries) :
    unsummarizedDaysAll db' = unsummarizedDaysAll db := by
  unfold unsummarizedDaysAll hasInter hasDaily
  rw [hd, hi, hs]

theorem unsummarizedWeeksAll_congr (db db' : MemoryDB)
    (hd : db'.days = db.days) (hds : db'.daily_summaries = db.daily_summaries)
    (hw : db'.weekly_summaries = db.weekly_summaries) :
    unsummarizedWeeksAll db' = unsummarizedWeeksAll db := by
  unfold unsummarizedWeeksAll hasDaily hasWeekly
  rw [hd, hds, hw]

theorem unsummarizedMonthsAll_congr (db db' : MemoryDB)
    (hd : db'.days = db.days) (hw : db'.weekly_summaries = db.weekly_summaries)
    (hm : db'.monthly_summaries = db.monthly_summaries) :
    unsummarizedMonthsAll db' = unsummarizedMonthsAll db := by
  unfold unsummarizedMonthsAll hasMonthly
  rw [hd, hw, hm]

theorem runDaily_noop (o : SummarizerOracle) (db : MemoryDB) (n : Nat)
    (h : getUnsummarizedDays db n = []) :
    runDailySummarization o db n = (db, ⟨0, 0, 0⟩) := by
  unfold runDailySummarization
  rw [h]
  rfl

theorem runWeekly_noop (o : SummarizerOracle) (db : MemoryDB) (n : Nat)
    (h : getUnsummarizedWeeks db n = []) :
    runWeeklySummarization o db n = (db, ⟨0, 0, 0⟩) := by
  unfold runWeeklySummarization
  rw [h]
  rfl

theorem runMonthly_noop (o : SummarizerOracle) (db : MemoryDB) (n : Nat)
    (h : getUnsummarizedMonths db n = []) :
    runMonthlySummarization o db n = (db, ⟨0, 0, 0⟩) := by
  unfold runMonthlySummarization
  rw [h]
  rfl

theorem runFull_noop (o : SummarizerOracle) (db : MemoryDB)
    (hd : getUnsummarizedDays db 7 = [])
    (hw : getUnsummarizedWeeks db 4 = [])
    (hm : getUnsummarizedMonths db 2 = []) :
    runFullSummarizationPipeline o db = (db, (⟨0, 0, 0⟩, ⟨0, 0, 0⟩, ⟨0, 0, 0⟩)) := by
  unfold runFullSummarizationPipeline
  rw [runDaily_noop o db 7 hd]
  dsimp only
  rw [runWeekly_noop o db 4 hw]
  dsimp only
  rw [runMonthly_noop o db 2 hm]

/-- C8 (amended): each tier's selection query returns only units with
source material and no existing summary row, and summaries are written with
an upsert keyed by the time identifier; hence, **provided each tier's
per-run cap was at least the number of unsummarized units when that tier
ran**, a second pipeline run immediately after a successful run with no new
source rows selects zero units at every tier and performs zero writes
(it returns the database unchanged with all counters zero). -/
theorem summarization_upsert_idempotent
    (o : SummarizerOracle) (db : MemoryDB) (capD capW capM : Nat)
    (h1 : (unsummarizedDaysAll db).length ≤ capD)
    (h2 : (unsummarizedWeeksAll (runDailySummarization o db capD).1).length ≤ capW)
    (h3 : (unsummarizedMonthsAll (runWeeklySummarization o
        (runDailySummarization o db capD).1 capW).1).length ≤ capM) :
    (∀ n d, d ∈ getUnsummarizedDays db n →
      hasInter db d = true ∧ hasDaily db d = false) ∧
    (∀ n yw, yw ∈ getUnsummarizedWeeks db n →
      weekHasSource db yw ∧ hasWeekly db yw.1 yw.2 = false) ∧
    (∀ n ym, ym ∈ getUnsummarizedMonths db n →
      monthHasSource db ym ∧ hasMonthly db ym.1 ym.2 = false) ∧
    (∀ n, getUnsummarizedDays (runMonthlySummarization o (runWeeklySummarization o
      (runDailySummarization o db capD).1 capW).1 capM).1 n = []) ∧
    (∀ n, getUnsummarizedWeeks (runMonthlySummarization o (runWeeklySummarization o
      (runDailySummarization o db capD).1 capW).1 capM).1 n = []) ∧
    (∀ n, getUnsummarizedMonths (runMonthlySummarization o (runWeeklySummarization o
      (runDailySummarization o db capD).1 capW).1 capM).1 n = []) ∧
    runFullSummarizationPipeline o (runMonthlySummarization o (runWeeklySummarization o
      (runDailySummarization o db capD).1 capW).1 capM).1 =
      ((runMonthlySummarization o (runWeeklySummarization o
        (runDailySummarization o db capD).1 capW).1 capM).1,
        (⟨0, 0, 0⟩, ⟨0, 0, 0⟩, ⟨0, 0, 0⟩)) := by
  obtain ⟨d1, d2, d3, d4, d5, d6⟩ := runDaily_covers o db capD h1
  obtain ⟨w1, w2, w3, w4, w5, w6⟩ :=
    runWeekly_covers o (runDailySummarization o db capD).1 capW h2
  obtain ⟨m1, m2, m3, m4, m5, m6⟩ := runMonthly_covers o (runWeeklySummarization o
    (runDailySummarization o db capD).1 capW).1 capM h3
  have hdall : unsummarizedDaysAll (runMonthlySummarization o (runWeeklySummarization o
      (runDailySummarization o db capD).1 capW).1 capM).1 = [] := by
    rw [unsummarizedDaysAll_congr _ _ m1 m2 m3,
      unsummarizedDaysAll_congr _ _ w1 w2 w3]
    exact d6
  have hwall : unsummarizedWeeksAll (runMonthlySummarization o (runWeeklySummarization o
      (runDailySummarization o db capD).1 capW).1 capM).1 = [] := by
    rw [unsummarizedWeeksAll_congr _ _ m1 m3 m4]
    exact w6
  have hmall : unsummarizedMonthsAll (runMonthlySummarization o (runWeeklySummarization o
      (runDailySummarization o db capD).1 capW).1 capM).1 = [] := m6
  have hdn : ∀ n, getUnsummarizedDays (runMonthlySummarization o (runWeeklySummarization o
      (runDailySummarization o db capD).1 capW).1 capM).1 n = [] := by
    intro n; unfold getUnsummarizedDays; rw [hdall]; exact List.take_nil
  have hwn : ∀ n, getUnsummarizedWeeks (runMonthlySummarization o (runWeeklySummarization o
      (runDailySummarization o db capD).1 capW).1 capM).1 n = [] := by
    intro n; unfold getUnsummarizedWeeks; rw [hwall]; exact List.take_nil
  have hmn : ∀ n, getUnsummarizedMonths (runMonthlySummarization o (runWeeklySummarization o
      (runDailySummarization o db capD).1 capW).1 capM).1 n = [] := by
    intro n; unfold getUnsummarizedMonths; rw [hmall]; exact List.take_nil
  refine ⟨?_, ?_, ?_, hdn, hwn, hmn, ?_⟩
  · intro n d hd
    have := mem_unsummarizedDaysAll db d (List.take_subset n _ hd)
    exact ⟨this.2.1, this.2.2⟩
  · intro n yw hyw
    exact mem_unsummarizedWeeksAll db yw (List.take_subset n _ hyw)
  · intro n ym hym
    exact mem_unsummarizedMonthsAll db ym (List.take_subset n _ hym)
  · exact runFull_noop o _ (hdn 7) (hwn 4) (hmn 2)

/-- Oracle used by the concrete C8 instances. -/
def sampleOracle : SummarizerOracle :=
  ⟨fun _ => ("s", []), fun _ => ("w", []), fun _ => ("m", []),
   fun _ => none, fun d => ⟨d, 1, 1, 1, 1, 1⟩, "f", "p"⟩

/-- Eight unsummarized days — one more than the daily tier's per-run cap. -/
def sampleDbEight : MemoryDB :=
  ⟨[⟨1, 1, 1, 1, 1, 1⟩, ⟨2, 1, 1, 2, 1, 2⟩, ⟨3, 1, 1, 3, 1, 3⟩, ⟨4, 1, 1, 4, 1, 4⟩,
    ⟨5, 1, 1, 5, 1, 5⟩, ⟨6, 1, 1, 6, 1, 6⟩, ⟨7, 1, 1, 7, 1, 7⟩, ⟨8, 1, 1, 8, 1, 1⟩],
   [⟨"i1", 1, 0, "u", "a", none, none⟩, ⟨"i2", 2, 0, "u", "a", none, none⟩,
    ⟨"i3", 3, 0, "u", "a", none, none⟩, ⟨"i4", 4, 0, "u", "a", none, none⟩,
    ⟨"i5", 5, 0, "u", "a", none, none⟩, ⟨"i6", 6, 0, "u", "a", none, none⟩,
    ⟨"i7", 7, 0, "u", "a", none, none⟩, ⟨"i8", 8, 0, "u", "a", none, none⟩],
   [], [], []⟩

/-- C8 as stated is false on the code: with eight unsummarized days the
first full pipeline run (daily cap 7) leaves one day unsummarized, so the
second back-to-back run with no new source rows selects it and writes —
the second run's daily tier processes one unit and changes the database. -/
theorem summarization_second_run_writes :
    (runFullSummarizationPipeline sampleOracle
      (runFullSummarizationPipeline sampleOracle sampleDbEight).1).2.1.processed = 1 ∧
    (runFullSummarizationPipeline sampleOracle
      (runFullSummarizationPipeline sampleOracle sampleDbEight).1).1 ≠
      (runFullSummarizationPipeline sampleOracle sampleDbEight).1 := by
  decide

/-- One unsummarized day, within all caps. -/
def sampleDbOne : MemoryDB :=
  ⟨[⟨1, 1, 1, 1, 1, 1⟩], [⟨"i1", 1, 0, "u", "a", none, none⟩], [], [], []⟩

/-- Witness for `summarization_upsert_idempotent` at a concrete database
within the caps. -/
theorem summarization_upsert_idempotent_witness :
    (unsummarizedDaysAll sampleDbOne).length ≤ 7 ∧
    runFullSummarizationPipeline sampleOracle
      (runMonthlySummarization sampleOracle (runWeeklySummarization sampleOracle
        (runDailySummarization sampleOracle sampleDbOne 7).1 4).1 2).1 =
      ((runMonthlySummarization sampleOracle (runWeeklySummarization sampleOracle
        (runDailySummarization sampleOracle sampleDbOne 7).1 4).1 2).1,
        (⟨0, 0, 0⟩, ⟨0, 0, 0⟩, ⟨0, 0, 0⟩)) :=
  ⟨by decide,
    (summarization_upsert_idempotent sampleOracle sampleDbOne 7 4 2
      (by decide) (by decide) (by decide)).2.2.2.2.2.2⟩

/-! ## Semantic search (`PostgresStore.semantic_search`)

pgvector orders by cosine distance `embedding <=> query` and the source
fetches `top_k * 2` nearest rows, computes `score = 1 - distance`
(= cosine similarity), keeps rows with `score ≥ min_score` and returns the
first `top_k`.  Cosine similarity `dot/(‖q‖·‖e‖)` is irrational in
general, so the order and threshold comparisons are implemented exactly on
rationals by sign analysis and squaring; the bridging lemmas relate them
to the real-valued similarity. -/

/-- Inner product of two vectors (pgvector `<#>` building block). -/
def dot (a b : List ℚ) : ℚ :=
  (List.zipWith (· * ·) a b).sum

/-- Squared Euclidean norm. -/
def norm2 (v : List ℚ) : ℚ :=
  dot v v

/-- Exact comparison `d1/√E1 ≤ d2/√E2` (for `E1, E2 > 0`) by sign analysis
and squaring. -/
def simLEb (d1 E1 d2 E2 : ℚ) : Bool :=
  if d1 < 0 then
    if d2 < 0 then d2 ^ 2 * E1 ≤ d1 ^ 2 * E2
    else true
  else
    if d2 < 0 then false
    else d1 ^ 2 * E2 ≤ d2 ^ 2 * E1

/-- Exact comparison `τ ≤ d/√(Q·E)` (for `Q, E > 0`) by sign analysis and
squaring — the `score ≥ min_score` filter. -/
def simGEb (d Q E τ : ℚ) : Bool :=
  if 0 ≤ d then
    if τ ≤ 0 then true else τ ^ 2 * (Q * E) ≤ d ^ 2
  else
    if 0 < τ then false else d ^ 2 ≤ τ ^ 2 * (Q * E)

/-- The embedding of a row known to have one. -/
def embOf (r : InteractionRow) : List ℚ :=
  r.embedding.getD []

/-- `ORDER BY i.embedding <=> $1`: row `a` sorts no later than `b` iff its
cosine distance is no larger, i.e. its similarity is no smaller. -/
def rowLE (q : List ℚ) (a b : InteractionRow) : Bool :=
  simLEb (dot q (embOf b)) (norm2 (embOf b)) (dot q (embOf a)) (norm2 (embOf a))

/-- Insertion into a sorted list (comparator as the SQL sort). -/
def insertLE {α : Type} (le : α → α → Bool) (x : α) : List α → List α
  | [] => [x]
  | y :: ys => if le x y then x :: y :: ys else y :: insertLE le x ys

/-- Insertion sort with a boolean comparator. -/
def isortLE {α : Type} (le : α → α → Bool) : List α → List α
  | [] => []
  | x :: xs => insertLE le x (isortLE le xs)

/-- `semantic_search(embedding, top_k, min_score)`: rows with non-null
embeddings ordered by cosine distance, fetch `top_k * 2`, filter by
`score ≥ min_score`, return the first `top_k`. -/
def semanticSearch (db : MemoryDB) (q : List ℚ) (top_k : Nat := 5)
    (min_score : ℚ := 7/10) : List InteractionRow :=
  (((isortLE (rowLE q) (db.interactions.filter (fun i => i.embedding ≠ none))).take
      (top_k * 2)).filter
    (fun r => simGEb (dot q (embOf r)) (norm2 q) (norm2 (embOf r)) min_score)).take
      top_k

/-- Real-valued cosine similarity (the `score` column). -/
noncomputable def cosSimR (q e : List ℚ) : ℝ :=
  (dot q e : ℝ) / (Real.sqrt ((norm2 q : ℚ) : ℝ) * Real.sqrt ((norm2 e : ℚ) : ℝ))

/-- Real-valued sort key with the common query norm cancelled. -/
noncomputable def simKeyR (q : List ℚ) (r : InteractionRow) : ℝ :=
  (dot q (embOf r) : ℝ) / Real.sqrt ((norm2 (embOf r) : ℚ) : ℝ)

theorem norm2_nonneg (v : List ℚ) : 0 ≤ norm2 v := by
  unfold norm2 dot
  induction v with
  | nil => simp
  | cons x xs ih =>
    simp only [List.zipWith_cons_cons, List.sum_cons]
    have : 0 ≤ x * x := mul_self_nonneg x
    linarith

theorem dot_sq_le_norm2_mul (a b : List ℚ) :
    (dot a b) ^ 2 ≤ norm2 a * norm2 b := by
  induction a generalizing b with
  | nil =>
    simp [dot, norm2]
  | cons x xs ih =>
    cases b with
    | nil =>
      simp [dot, norm2]
    | cons y ys =>
      have hA : 0 ≤ norm2 xs := norm2_nonneg xs
      have hB : 0 ≤ norm2 ys := norm2_nonneg ys
      have hS := ih ys
      have hd : dot (x :: xs) (y :: ys) = x * y + dot xs ys := by
        simp [dot]
      have hna : norm2 (x :: xs) = x * x + norm2 xs := by
        simp [norm2, dot]
      have hnb : norm2 (y :: ys) = y * y + norm2 ys := by
        simp [norm2, dot]
      rw [hd, hna, hnb]
      rcases eq_or_lt_of_le hA with hA0 | hA0
      · have hS0 : dot xs ys = 0 := by nlinarith [sq_nonneg (dot xs ys)]
        rw [hS0, ← hA0]
        nlinarith [mul_nonneg (mul_self_nonneg x) hB]
      · nlinarith [sq_nonneg (x * dot xs ys - norm2 xs * y),
          mul_nonneg (add_nonneg (mul_self_nonneg x) hA) (sub_nonneg.mpr hS), hA0]

theorem sq_le_sq_iff_of_nonneg {a b : ℝ} (ha : 0 ≤ a) (hb : 0 ≤ b) :
    a ^ 2 ≤ b ^ 2 ↔ a ≤ b := by
  constructor
  · intro h
    by_contra hc
    push_neg at hc
    nlinarith
  · intro h
    exact pow_le_pow_left ha h 2

theorem simLEb_iff (d1 E1 d2 E2 : ℚ) (h1 : 0 < E1) (h2 : 0 < E2) :
    simLEb d1 E1 d2 E2 = true ↔
      (d1 : ℝ) / Real.sqrt ((E1 : ℚ) : ℝ) ≤ (d2 : ℝ) / Real.sqrt ((E2 : ℚ) : ℝ) := by
  have s1pos : (0 : ℝ) < Real.sqrt ((E1 : ℚ) : ℝ) :=
    Real.sqrt_pos.mpr (by exact_mod_cast h1)
  have s2pos : (0 : ℝ) < Real.sqrt ((E2 : ℚ) : ℝ) :=
    Real.sqrt_pos.mpr (by exact_mod_cast h2)
  have hs1 : Real.sqrt ((E1 : ℚ) : ℝ) ^ 2 = ((E1 : ℚ) : ℝ) :=
    Real.sq_sqrt (by exact_mod_cast h1.le)
  have hs2 : Real.sqrt ((E2 : ℚ) : ℝ) ^ 2 = ((E2 : ℚ) : ℝ) :=
    Real.sq_sqrt (by exact_mod_cast h2.le)
  rw [div_le_div_iff s1pos s2pos]
  unfold simLEb
  by_cases hd1 : d1 < 0 <;> by_cases hd2 : d2 < 0
  · have h1r : (d1 : ℝ) < 0 := by exact_mod_cast hd1
    have h2r : (d2 : ℝ) < 0 := by exact_mod_cast hd2
    rw [if_pos hd1, if_pos hd2, decide_eq_true_eq]
    have key : ((d2 : ℝ) ^ 2 * ((E1 : ℚ) : ℝ) ≤ (d1 : ℝ) ^ 2 * ((E2 : ℚ) : ℝ)) ↔
        (d1 : ℝ) * Real.sqrt ((E2 : ℚ) : ℝ) ≤ (d2 : ℝ) * Real.sqrt ((E1 : ℚ) : ℝ) := by
      have e1 : (d2 : ℝ) ^ 2 * ((E1 : ℚ) : ℝ) =
          (-(d2 : ℝ) * Real.sqrt ((E1 : ℚ) : ℝ)) ^ 2 := by
        rw [mul_pow, hs1]; ring
      have e2 : (d1 : ℝ) ^ 2 * ((E2 : ℚ) : ℝ) =
          (-(d1 : ℝ) * Real.sqrt ((E2 : ℚ) : ℝ)) ^ 2 := by
        rw [mul_pow, hs2]; ring
      rw [e1, e2, sq_le_sq_iff_of_nonneg
        (mul_nonneg (by linarith) s1pos.le) (mul_nonneg (by linarith) s2pos.le)]
      constructor <;> intro h <;> nlinarith
    rw [← key]
    constructor <;> intro h
    · push_cast
      exact_mod_cast h
    · push_cast at h
      exact_mod_cast h
  · have h1r : (d1 : ℝ) < 0 := by exact_mod_cast hd1
    have h2r : (0 : ℝ) ≤ (d2 : ℝ) := by exact_mod_cast (not_lt.mp hd2)
    rw [if_pos hd1, if_neg hd2]
    exact iff_of_true rfl (by nlinarith)
  · have h1r : (0 : ℝ) ≤ (d1 : ℝ) := by exact_mod_cast (not_lt.mp hd1)
    have h2r : (d2 : ℝ) < 0 := by exact_mod_cast hd2
    rw [if_neg hd1, if_pos hd2]
    refine iff_of_false (by simp) ?_
    push_neg
    nlinarith
  · have h1r : (0 : ℝ) ≤ (d1 : ℝ) := by exact_mod_cast (not_lt.mp hd1)
    have h2r : (0 : ℝ) ≤ (d2 : ℝ) := by exact_mod_cast (not_lt.mp hd2)
    rw [if_neg hd1, if_neg hd2, decide_eq_true_eq]
    have key : ((d1 : ℝ) ^ 2 * ((E2 : ℚ) : ℝ) ≤ (d2 : ℝ) ^ 2 * ((E1 : ℚ) : ℝ)) ↔
        (d1 : ℝ) * Real.sqrt ((E2 : ℚ) : ℝ) ≤ (d2 : ℝ) * Real.sqrt ((E1 : ℚ) : ℝ) := by
      have e1 : (d1 : ℝ) ^ 2 * ((E2 : ℚ) : ℝ) =
          ((d1 : ℝ) * Real.sqrt ((E2 : ℚ) : ℝ)) ^ 2 := by
        rw [mul_pow, hs2]
      have e2 : (d2 : ℝ) ^ 2 * ((E1 : ℚ) : ℝ) =
          ((d2 : ℝ) * Real.sqrt ((E1 : ℚ) : ℝ)) ^ 2 := by
        rw [mul_pow, hs1]
      rw [e1, e2, sq_le_sq_iff_of_nonneg
        (mul_nonneg h1r s2pos.le) (mul_nonneg h2r s1pos.le)]
    rw [← key]
    constructor <;> intro h
    · push_cast
      exact_mod_cast h
    · push_cast at h
      exact_mod_cast h

theorem simGEb_iff (d Q E τ : ℚ) (hQ : 0 < Q) (hE : 0 < E) :
    simGEb d Q E τ = true ↔
      (τ : ℝ) ≤ (d : ℝ) / Real.sqrt (((Q * E : ℚ)) : ℝ) := by
  have spos : (0 : ℝ) < Real.sqrt (((Q * E : ℚ)) : ℝ) :=
    Real.sqrt_pos.mpr (by exact_mod_cast mul_pos hQ hE)
  have hs : Real.sqrt (((Q * E : ℚ)) : ℝ) ^ 2 = (((Q * E : ℚ)) : ℝ) :=
    Real.sq_sqrt (by exact_mod_cast (mul_pos hQ hE).le)
  rw [le_div_iff spos]
  unfold simGEb
  by_cases hd : 0 ≤ d <;> by_cases ht : τ ≤ 0
  · have hdr : (0 : ℝ) ≤ (d : ℝ) := by exact_mod_cast hd
    have htr : (τ : ℝ) ≤ 0 := by exact_mod_cast ht
    rw [if_pos hd, if_pos ht]
    refine iff_of_true rfl ?_
    nlinarith
  · have hdr : (0 : ℝ) ≤ (d : ℝ) := by exact_mod_cast hd
    have htr : (0 : ℝ) < (τ : ℝ) := by exact_mod_cast (not_le.mp ht)
    rw [if_pos hd, if_neg ht, decide_eq_true_eq]
    have key : ((τ : ℝ) ^ 2 * (((Q * E : ℚ)) : ℝ) ≤ (d : ℝ) ^ 2) ↔
        (τ : ℝ) * Real.sqrt (((Q * E : ℚ)) : ℝ) ≤ (d : ℝ) := by
      have e1 : (τ : ℝ) ^ 2 * (((Q * E : ℚ)) : ℝ) =
          ((τ : ℝ) * Real.sqrt (((Q * E : ℚ)) : ℝ)) ^ 2 := by
        rw [mul_pow, hs]
      rw [e1]
      exact sq_le_sq_iff_of_nonneg (mul_nonneg htr.le spos.le) hdr
    rw [← key]
    constructor <;> intro h
    · push_cast
      exact_mod_cast h
    · push_cast at h
      exact_mod_cast h
  · have hdr : (d : ℝ) < 0 := by exact_mod_cast (not_le.mp hd)
    have htr : (τ : ℝ) ≤ 0 := by exact_mod_cast ht
    have hnt : ¬ (0 < τ) := not_lt.mpr ht
    rw [if_neg hd, if_neg hnt, decide_eq_true_eq]
    have key : ((d : ℝ) ^ 2 ≤ (τ : ℝ) ^ 2 * (((Q * E : ℚ)) : ℝ)) ↔
        (τ : ℝ) * Real.sqrt (((Q * E : ℚ)) : ℝ) ≤ (d : ℝ) := by
      have e1 : (τ : ℝ) ^ 2 * (((Q * E : ℚ)) : ℝ) =
          (-((τ : ℝ) * Real.sqrt (((Q * E : ℚ)) : ℝ))) ^ 2 := by
        rw [neg_pow, mul_pow, hs]; ring
      have e2 : (d : ℝ) ^ 2 = (-(d : ℝ)) ^ 2 := by ring
      have hb : (0 : ℝ) ≤ -((τ : ℝ) * Real.sqrt (((Q * E : ℚ)) : ℝ)) := by nlinarith
      rw [e1, e2, sq_le_sq_iff_of_nonneg (by linarith) hb]
      constructor <;> intro h <;> linarith
    rw [← key]
    constructor <;> intro h
    · push_cast
      exact_mod_cast h
    · push_cast at h
      exact_mod_cast h
  · have hdr : (d : ℝ) < 0 := by exact_mod_cast (not_le.mp hd)
    have htr : (0 : ℝ) < (τ : ℝ) := by exact_mod_cast (not_le.mp ht)
    have hnt : 0 < τ := not_le.mp ht
    rw [if_neg hd, if_pos hnt]
    refine iff_of_false (by simp) ?_
    push_neg
    nlinarith

theorem insertLE_perm {α : Type} (le : α → α → Bool) (x : α) (l : List α) :
    List.Perm (insertLE le x l) (x :: l) := by
  induction l with
  | nil => exact List.Perm.refl _
  | cons y ys ih =>
    unfold insertLE
    split
    · exact List.Perm.refl _
    · exact (List.Perm.cons y ih).trans (List.Perm.swap x y ys)

theorem isortLE_perm {α : Type} (le : α → α → Bool) (l : List α) :
    List.Perm (isortLE le l) l := by
  induction l with
  | nil => exact List.Perm.refl _
  | cons x xs ih => exact (insertLE_perm le x (isortLE le xs)).trans (List.Perm.cons x ih)

theorem mem_insertLE {α : Type} (le : α → α → Bool) (x : α) (l : List α) (z : α) :
    z ∈ insertLE le x l ↔ z = x ∨ z ∈ l := by
  rw [(insertLE_perm le x l).mem_iff]
  exact List.mem_cons

theorem insertLE_pairwise {α : Type} (le : α → α → Bool) (f : α → ℝ) (P : α → Prop)
    (hbr : ∀ a b, P a → P b → (le a b = true ↔ f a ≤ f b))
    (x : α) (hx : P x) (l : List α) (hl : ∀ y ∈ l, P y)
    (hs : l.Pairwise (fun a b => f a ≤ f b)) :
    (insertLE le x l).Pairwise (fun a b => f a ≤ f b) := by
  induction l with
  | nil => simp [insertLE]
  | cons y ys ih =>
    have hy : P y := hl y (List.mem_cons_self _ _)
    have hys : ∀ z ∈ ys, P z := fun z hz => hl z (List.mem_cons_of_mem _ hz)
    rw [List.pairwise_cons] at hs
    unfold insertLE
    split
    · next hle =>
      have hxy : f x ≤ f y := (hbr x y hx hy).1 hle
      rw [List.pairwise_cons]
      refine ⟨?_, List.pairwise_cons.2 ⟨hs.1, hs.2⟩⟩
      intro z hz
      rcases List.mem_cons.1 hz with rfl | hz'
      · exact hxy
      · exact le_trans hxy (hs.1 z hz')
    · next hle =>
      have hyx : f y ≤ f x := by
        rcases le_total (f x) (f y) with h | h
        · exact absurd ((hbr x y hx hy).2 h) (by simpa using hle)
        · exact h
      rw [List.pairwise_cons]
      refine ⟨?_, ih hys hs.2⟩
      intro z hz
      rcases (mem_insertLE le x ys z).1 hz with rfl | hz'
      · exact hyx
      · exact hs.1 z hz'

theorem isortLE_pairwise {α : Type} (le : α → α → Bool) (f : α → ℝ) (P : α → Prop)
    (hbr : ∀ a b, P a → P b → (le a b = true ↔ f a ≤ f b))
    (l : List α) (hl : ∀ y ∈ l, P y) :
    (isortLE le l).Pairwise (fun a b => f a ≤ f b) := by
  induction l with
  | nil => simp [isortLE]
  | cons x xs ih =>
    unfold isortLE
    refine insertLE_pairwise le f P hbr x (hl x (List.mem_cons_self _ _)) _ ?_
      (ih (fun y hy => hl y (List.mem_cons_of_mem _ hy)))
    intro y hy
    exact hl y (List.mem_cons_of_mem _ ((isortLE_perm le xs).mem_iff.1 hy))

theorem cosSimR_eq_key_div (q : List ℚ) (r : InteractionRow) :
    cosSimR q (embOf r) = simKeyR q r / Real.sqrt ((norm2 q : ℚ) : ℝ) := by
  unfold cosSimR simKeyR
  rw [div_mul_eq_div_div_swap]

theorem cosSimR_self (q : List ℚ) (hq : 0 < norm2 q) : cosSimR q q = 1 := by
  unfold cosSimR norm2
  have hqr : (0 : ℝ) < ((dot q q : ℚ) : ℝ) := by exact_mod_cast hq
  rw [Real.mul_self_sqrt hqr.le]
  exact div_self (ne_of_gt hqr)

theorem cosSimR_le_one (q e : List ℚ) (hq : 0 < norm2 q) (he : 0 < norm2 e) :
    cosSimR q e ≤ 1 := by
  unfold cosSimR
  have hqr : (0 : ℝ) < ((norm2 q : ℚ) : ℝ) := by exact_mod_cast hq
  have her : (0 : ℝ) < ((norm2 e : ℚ) : ℝ) := by exact_mod_cast he
  have hcs : ((dot q e : ℚ) : ℝ) ^ 2 ≤ ((norm2 q : ℚ) : ℝ) * ((norm2 e : ℚ) : ℝ) := by
    exact_mod_cast dot_sq_le_norm2_mul q e
  have hsq : Real.sqrt (((norm2 q : ℚ) : ℝ)) * Real.sqrt (((norm2 e : ℚ) : ℝ)) =
      Real.sqrt (((norm2 q : ℚ) : ℝ) * ((norm2 e : ℚ) : ℝ)) :=
    (Real.sqrt_mul hqr.le _).symm
  have hspos : (0 : ℝ) < Real.sqrt (((norm2 q : ℚ) : ℝ)) * Real.sqrt (((norm2 e : ℚ) : ℝ)) := by
    rw [hsq]
    exact Real.sqrt_pos.mpr (mul_pos hqr her)
  rw [div_le_one hspos, hsq]
  calc ((dot q e : ℚ) : ℝ) ≤ |((dot q e : ℚ) : ℝ)| := le_abs_self _
    _ = Real.sqrt (((dot q e : ℚ) : ℝ) ^ 2) := (Real.sqrt_sq_eq_abs _).symm
    _ ≤ Real.sqrt (((norm2 q : ℚ) : ℝ) * ((norm2 e : ℚ) : ℝ)) := Real.sqrt_le_sqrt hcs

theorem rowLE_iff (q : List ℚ) (a b : InteractionRow)
    (ha : 0 < norm2 (embOf a)) (hb : 0 < norm2 (embOf b)) :
    rowLE q a b = true ↔ -simKeyR q a ≤ -simKeyR q b := by
  unfold rowLE
  rw [simLEb_iff _ _ _ _ hb ha]
  unfold simKeyR
  rw [neg_le_neg_iff]

theorem cosSimR_mono_of_key (q : List ℚ) (hq : 0 < norm2 q) (a b : InteractionRow)
    (h : simKeyR q b ≤ simKeyR q a) :
    cosSimR q (embOf b) ≤ cosSimR q (embOf a) := by
  rw [cosSimR_eq_key_div, cosSimR_eq_key_div]
  have hs : (0 : ℝ) < Real.sqrt ((norm2 q : ℚ) : ℝ) :=
    Real.sqrt_pos.mpr (by exact_mod_cast hq)
  exact (div_le_div_right hs).mpr h

theorem simGEb_cos (q : List ℚ) (r : InteractionRow) (τ : ℚ)
    (hq : 0 < norm2 q) (he : 0 < norm2 (embOf r)) :
    (simGEb (dot q (embOf r)) (norm2 q) (norm2 (embOf r)) τ = true ↔
      (τ : ℝ) ≤ cosSimR q (embOf r)) := by
  rw [simGEb_iff _ _ _ _ hq he]
  unfold cosSimR
  rw [show (((norm2 q * norm2 (embOf r) : ℚ)) : ℝ) =
      ((norm2 q : ℚ) : ℝ) * ((norm2 (embOf r) : ℚ) : ℝ) by push_cast; ring,
    Real.sqrt_mul (by exact_mod_cast norm2_nonneg q)]

theorem rows_norm_pos (db : MemoryDB) :
    (∀ r ∈ db.interactions, r.embedding ≠ none → 0 < norm2 (embOf r)) →
    ∀ r ∈ db.interactions.filter (fun i => i.embedding ≠ none), 0 < norm2 (embOf r) := by
  intro hall r hr
  have hm := List.mem_filter.1 hr
  exact hall r hm.1 (of_decide_eq_true hm.2)

/-- C9: For every call to semantic search with a nonzero query embedding over
interactions whose stored embeddings are all nonzero, the result list has at
most `top_k` rows, each returned row has an embedding whose cosine similarity
with the query is at least `min_score`, and the rows are ordered by
nonincreasing cosine similarity.  Round-trip, under a uniqueness condition:
if interaction `i` is stored with nonzero embedding `v` and every other
stored embedded row has cosine similarity with `v` strictly below 1
(expressed exactly by `simGEb ... 1 = false`), then
`semantic_search(v, top_k = 1, min_score = 0)` returns exactly `[i]`. -/
theorem semantic_search_spec :
    (∀ (db : MemoryDB) (q : List ℚ) (k : Nat) (τ : ℚ),
      0 < norm2 q →
      (∀ r ∈ db.interactions, r.embedding ≠ none → 0 < norm2 (embOf r)) →
      (semanticSearch db q k τ).length ≤ k ∧
      (∀ r ∈ semanticSearch db q k τ,
        ∃ e, r.embedding = some e ∧ (τ : ℝ) ≤ cosSimR q e) ∧
      (semanticSearch db q k τ).Pairwise
        (fun a b => cosSimR q (embOf b) ≤ cosSimR q (embOf a))) ∧
    (∀ (db : MemoryDB) (i : InteractionRow) (v : List ℚ),
      i ∈ db.interactions → i.embedding = some v → 0 < norm2 v →
      (∀ r ∈ db.interactions, r.embedding ≠ none → 0 < norm2 (embOf r)) →
      (∀ r ∈ db.interactions, r ≠ i → r.embedding ≠ none →
        simGEb (dot v (embOf r)) (norm2 v) (norm2 (embOf r)) 1 = false) →
      semanticSearch db v 1 0 = [i]) := by
  constructor
  · intro db q k τ hq hall
    have hrowsP := rows_norm_pos db hall
    have hperm := isortLE_perm (rowLE q) (db.interactions.filter (fun i => i.embedding ≠ none))
    have hsortedP : ∀ r ∈ isortLE (rowLE q)
        (db.interactions.filter (fun i => i.embedding ≠ none)), 0 < norm2 (embOf r) :=
      fun r hr => hrowsP r (hperm.mem_iff.1 hr)
    have hpair : (isortLE (rowLE q)
        (db.interactions.filter (fun i => i.embedding ≠ none))).Pairwise
        (fun a b => -simKeyR q a ≤ -simKeyR q b) :=
      isortLE_pairwise (rowLE q) (fun r => -simKeyR q r) (fun r => 0 < norm2 (embOf r))
        (fun a b ha hb => rowLE_iff q a b ha hb) _ hrowsP
    have hdef : semanticSearch db q k τ =
        (((isortLE (rowLE q) (db.interactions.filter (fun i => i.embedding ≠ none))).take
            (k * 2)).filter
          (fun r => simGEb (dot q (embOf r)) (norm2 q) (norm2 (embOf r)) τ)).take k := rfl
    refine ⟨?_, ?_, ?_⟩
    · rw [hdef]
      exact List.length_take_le _ _
    · intro r hr
      rw [hdef] at hr
      have hr1 := List.take_subset _ _ hr
      have hr2 := List.mem_filter.1 hr1
      have hr3 := List.take_subset _ _ hr2.1
      have hrP : 0 < norm2 (embOf r) := hsortedP r hr3
      have hrRows := hperm.mem_iff.1 hr3
      have hrne : r.embedding ≠ none := of_decide_eq_true (List.mem_filter.1 hrRows).2
      obtain ⟨e, he⟩ : ∃ e, r.embedding = some e := by
        rcases hemb : r.embedding with _ | e
        · exact absurd hemb hrne
        · exact ⟨e, rfl⟩
      refine ⟨e, he, ?_⟩
      have hEq : embOf r = e := by simp [embOf, he]
      have hsc := (simGEb_cos q r τ hq hrP).1 hr2.2
      rw [hEq] at hsc
      exact hsc
    · rw [hdef]
      have hsub : List.Sublist
          ((((isortLE (rowLE q)
            (db.interactions.filter (fun i => i.embedding ≠ none))).take (k * 2)).filter
              (fun r => simGEb (dot q (embOf r)) (norm2 q) (norm2 (embOf r)) τ)).take k)
          (isortLE (rowLE q) (db.interactions.filter (fun i => i.embedding ≠ none))) :=
        (List.take_sublist _ _).trans ((List.filter_sublist _).trans (List.take_sublist _ _))
      refine (hpair.sublist hsub).imp ?_
      intro a b hab
      exact cosSimR_mono_of_key q hq a b (neg_le_neg_iff.1 hab)
  · intro db i v hi hv hnv hall huniq
    have hrowsP := rows_norm_pos db hall
    have hperm := isortLE_perm (rowLE v) (db.interactions.filter (fun i => i.embedding ≠ none))
    have hpair : (isortLE (rowLE v)
        (db.interactions.filter (fun i => i.embedding ≠ none))).Pairwise
        (fun a b => -simKeyR v a ≤ -simKeyR v b) :=
      isortLE_pairwise (rowLE v) (fun r => -simKeyR v r) (fun r => 0 < norm2 (embOf r))
        (fun a b ha hb => rowLE_iff v a b ha hb) _ hrowsP
    have hEqi : embOf i = v := by simp [embOf, hv]
    have hiP : 0 < norm2 (embOf i) := by rw [hEqi]; exact hnv
    have hiSorted : i ∈ isortLE (rowLE v)
        (db.interactions.filter (fun i => i.embedding ≠ none)) := by
      refine hperm.mem_iff.2 (List.mem_filter.2 ⟨hi, ?_⟩)
      simp [hv]
    cases hsrt : isortLE (rowLE v) (db.interactions.filter (fun i => i.embedding ≠ none)) with
    | nil =>
      rw [hsrt] at hiSorted
      exact absurd hiSorted (List.not_mem_nil i)
    | cons r0 t =>
      have hr0Sorted : r0 ∈ isortLE (rowLE v)
          (db.interactions.filter (fun i => i.embedding ≠ none)) := by
        rw [hsrt]
        exact List.mem_cons_self _ _
      have hr0Rows := hperm.mem_iff.1 hr0Sorted
      have hr0P := hrowsP r0 hr0Rows
      have hkey : simKeyR v i ≤ simKeyR v r0 := by
        have hmem := hiSorted
        rw [hsrt] at hmem
        rcases List.mem_cons.1 hmem with rfl | hit
        · exact le_refl _
        · have hp := hpair
          rw [hsrt] at hp
          have hle := (List.pairwise_cons.1 hp).1 i hit
          exact neg_le_neg_iff.1 hle
      have hr0i : r0 = i := by
        by_contra hne
        have hr0mem : r0 ∈ db.interactions := (List.mem_filter.1 hr0Rows).1
        have hr0ne : r0.embedding ≠ none := of_decide_eq_true (List.mem_filter.1 hr0Rows).2
        have hge := huniq r0 hr0mem hne hr0ne
        have hcos1 : (1 : ℝ) ≤ cosSimR v (embOf r0) := by
          have hmono := cosSimR_mono_of_key v hnv r0 i hkey
          rw [hEqi, cosSimR_self v hnv] at hmono
          exact hmono
        have htrue := (simGEb_cos v r0 1 hnv hr0P).2 (by exact_mod_cast hcos1)
        rw [hge] at htrue
        exact Bool.noConfusion htrue
      rw [hr0i] at hsrt
      have hpred : simGEb (dot v (embOf i)) (norm2 v) (norm2 (embOf i)) 0 = true := by
        refine (simGEb_cos v i 0 hnv hiP).2 ?_
        rw [hEqi, cosSimR_self v hnv]
        norm_num
      rw [show semanticSearch db v 1 0 =
          (((isortLE (rowLE v) (db.interactions.filter (fun i => i.embedding ≠ none))).take
              2).filter
            (fun r => simGEb (dot v (embOf r)) (norm2 v) (norm2 (embOf r)) 0)).take 1 from rfl,
        hsrt]
      have htk : ((i :: t).take 2) = i :: t.take 1 := rfl
      rw [htk]
      simp [List.filter_cons, hpred]

def searchRowA : InteractionRow :=
  ⟨"iA", 20250101, 100, "hello there", "hi, how can I help", some "chat", some [1]⟩

def searchRowB : InteractionRow :=
  ⟨"iB", 20250101, 200, "hello again", "welcome back", some "chat", some [1]⟩

def searchRowC : InteractionRow :=
  ⟨"iC", 20250102, 300, "deploy the service", "deployment started", some "deploy",
    some [1, 1]⟩

def sampleSearchDb : MemoryDB :=
  ⟨[], [searchRowA, searchRowB], [], [], []⟩

def witnessSearchDb : MemoryDB :=
  ⟨[], [searchRowA, searchRowC], [], [], []⟩

/-- C9, counterexample to the claim as stated: interaction `searchRowB` is
stored with embedding `[1]`, yet `semantic_search([1], 1, 0)` does not return
`searchRowB` — the earlier-stored `searchRowA` has the identical embedding,
ties in cosine distance, and occupies the single returned slot, because the
`ORDER BY` has no tiebreaker and `top_k = 1` keeps only the first row. -/
theorem semantic_search_roundtrip_fails :
    searchRowB ∈ sampleSearchDb.interactions ∧
    searchRowB.embedding = some [1] ∧
    semanticSearch sampleSearchDb [1] 1 0 = [searchRowA] ∧
    searchRowA ≠ searchRowB := by
  refine ⟨by decide, rfl, ?_, by decide⟩
  norm_num [semanticSearch, sampleSearchDb, searchRowA, searchRowB, isortLE, insertLE,
    rowLE, simLEb, simGEb, dot, norm2, embOf, List.filter]

/-- C9 witness: the round-trip conclusion at a concrete database in which
`searchRowA` (embedding `[1]`) is the unique most-similar row to `[1]`. -/
theorem semantic_search_spec_witness :
    semanticSearch witnessSearchDb [1] 1 0 = [searchRowA] :=
  semantic_search_spec.2 witnessSearchDb searchRowA [1] (by decide) rfl
    (by norm_num [norm2, dot])
    (by
      intro r hr hne
      simp only [witnessSearchDb] at hr
      rcases List.mem_cons.1 hr with rfl | hr2
      · norm_num [embOf, searchRowA, norm2, dot]
      · rcases List.mem_cons.1 hr2 with rfl | hr3
        · norm_num [embOf, searchRowC, norm2, dot]
        · exact absurd hr3 (List.not_mem_nil _))
    (by
      intro r hr hne hemb
      simp only [witnessSearchDb] at hr
      rcases List.mem_cons.1 hr with rfl | hr2
      · exact absurd rfl hne
      · rcases List.mem_cons.1 hr2 with rfl | hr3
        · norm_num [simGEb, embOf, searchRowC, norm2, dot]
        · exact absurd hr3 (List.not_mem_nil _))

end Alex
